import Mathlib

/-!
Shallow embedding of the tenet rules VM (Go package `tenet`, with the current
engine file carrying `Run`/`Verify`, `resolver.go`, `operators.go`,
`validate.go` and the temporal router).  Values are the JSON value model the
Go engine works on after `json.Unmarshal`: `nil`, `bool`, `float64` (modelled
as exact rationals), `string`, `[]any` and `map[string]any`.  Go maps are
represented as association lists; the list order stands for the (unspecified)
iteration order of the Go map.  Panics (nil-pointer dereferences) are modelled
with `Except String`, and the `defer`/`recover` wrappers of the two public
entry points catch them, exactly as in the source.
-/

namespace Tenet

mutual

/-- JSON value model of the engine (`any` after `json.Unmarshal`).
`null` also stands for the Go `nil` interface value, which the engine never
distinguishes from JSON `null`. Numbers are Go `float64`, modelled as exact
rationals.  Arrays and objects carry their own list types so that every
recursion over values is structural. -/
inductive Value where
  | null : Value
  | bool : Bool → Value
  | num : Rat → Value
  | str : String → Value
  | arr : Vals → Value
  | obj : Fields → Value

/-- Elements of a JSON array (`[]any`). -/
inductive Vals where
  | nil : Vals
  | cons : Value → Vals → Vals

/-- Entries of a JSON object (`map[string]any`); the entry order models the
(unspecified) iteration order of the Go map. -/
inductive Fields where
  | nil : Fields
  | cons : String → Value → Fields → Fields

end

/-- View of an array's elements as a plain list. -/
def Vals.toList : Vals → List Value
  | .nil => []
  | .cons v vs => v :: vs.toList

/-- View of an object's entries as a plain association list. -/
def Fields.toList : Fields → List (String × Value)
  | .nil => []
  | .cons k v fs => (k, v) :: fs.toList

/-- Builds an array value from a list. -/
def valsOf : List Value → Vals
  | [] => .nil
  | v :: vs => .cons v (valsOf vs)

/-- Builds an object value from an association list. -/
def fieldsOf : List (String × Value) → Fields
  | [] => .nil
  | (k, v) :: fs => .cons k v (fieldsOf fs)

/-- Translation of `toFloat` (operators.go): accepts only numeric values;
strings are never converted; everything else is rejected. -/
def toFloat : Value → Option Rat
  | .num q => some q
  | _ => none

/-- Translation of `isSlice` (operators.go): true exactly for array values. -/
def isSlice : Value → Bool
  | .arr _ => true
  | _ => false

/-- Translation of `Engine.isTruthy` (resolver.go): nil, false, 0, the empty
string, the empty array and the empty object are falsy, all else truthy. -/
def isTruthy : Value → Bool
  | .null => false
  | .bool b => b
  | .num q => q != 0
  | .str s => s != ""
  | .arr xs => xs.toList.length > 0
  | .obj fs => fs.toList.length > 0

/-- Rational addition written through `mkRat` so that it evaluates inside the
kernel (the library addition on `Rat` does not unfold there).  These four
operations are the exact-rational idealizations of the Go `float64`
operations the engine performs. -/
def qAdd (a b : Rat) : Rat :=
  mkRat (a.num * (b.den : Int) + b.num * (a.den : Int)) (a.den * b.den)

/-- Rational subtraction through `mkRat`. -/
def qSub (a b : Rat) : Rat :=
  mkRat (a.num * (b.den : Int) - b.num * (a.den : Int)) (a.den * b.den)

/-- Rational multiplication through `mkRat`. -/
def qMul (a b : Rat) : Rat :=
  mkRat (a.num * b.num) (a.den * b.den)

/-- Rational division through `mkRat`; callers guard the zero divisor. -/
def qDiv (a b : Rat) : Rat :=
  if b.num < 0 then mkRat (-(a.num * (b.den : Int))) (a.den * b.num.natAbs)
  else mkRat (a.num * (b.den : Int)) (a.den * b.num.natAbs)

/-- Iterated `qMul`, used for powers of ten in number formatting. -/
def qPow (a : Rat) : Nat → Rat
  | 0 => 1
  | k + 1 => qMul (qPow a k) a

/-- Left-pad a digit string with zeros up to length `k`. -/
def padZeros (s : String) (k : Nat) : String :=
  String.mk (List.replicate (k - s.length) '0') ++ s

/-- Smallest exponent `k ≤ 50` such that `q * 10^k` is an integer, if any. -/
def decExp (q : Rat) : Option Nat :=
  (List.range 51).find? (fun k => (qMul q (qPow 10 k)).den = 1)

/-- Rendering of a Go `float64` by `fmt.Sprintf("%v", ·)`, i.e. the shortest
decimal form: integral values print with no fractional part, finite decimals
print exactly.  (Go switches to scientific notation for very large or very
small magnitudes; no value in this development reaches that regime.) -/
def goFormatNum (q : Rat) : String :=
  match decExp q with
  | some 0 => toString q.num
  | some (k + 1) =>
    let n := (qMul q (qPow 10 (k + 1))).num
    let a := n.natAbs
    let ip := a / 10 ^ (k + 1)
    let fp := a % 10 ^ (k + 1)
    let sign := if n < 0 then "-" else ""
    sign ++ toString ip ++ "." ++ padZeros (toString fp) (k + 1)
  | none => toString q.num ++ "/" ++ toString q.den

/-- Insertion into a key-sorted list of rendered map entries. -/
def insertByKey (p : String × String) : List (String × String) → List (String × String)
  | [] => [p]
  | q :: rest => if p.1 ≤ q.1 then p :: q :: rest else q :: insertByKey p rest

/-- Key-sort of rendered map entries (Go `fmt` prints maps key-sorted). -/
def sortByKey (l : List (String × String)) : List (String × String) :=
  l.foldr insertByKey []

mutual

/-- Rendering of a value by Go `fmt.Sprintf("%v", ·)`: `nil` prints as an
angle-bracketed nil marker, arrays space-separated in brackets, maps
key-sorted as map[k:v ...]. -/
def goString : Value → String
  | .null => "<nil>"
  | .bool b => if b then "true" else "false"
  | .num q => goFormatNum q
  | .str s => s
  | .arr xs => "[" ++ String.intercalate " " (goStringVals xs) ++ "]"
  | .obj fs =>
    "map[" ++
      String.intercalate " "
        ((sortByKey (goStringFields fs)).map (fun p => p.1 ++ ":" ++ p.2)) ++ "]"

/-- Renders each element of an array. -/
def goStringVals : Vals → List String
  | .nil => []
  | .cons x xs => goString x :: goStringVals xs

/-- Renders each field value of an object, keeping the key. -/
def goStringFields : Fields → List (String × String)
  | .nil => []
  | .cons k v fs => (k, goString v) :: goStringFields fs

end

/-- Translation of `Engine.compareEqual` (operators.go): nil equals only nil;
if both operands convert with `toFloat`, compare numerically; otherwise
compare the string renderings. -/
def compareEqual (a b : Value) : Bool :=
  match a, b with
  | .null, .null => true
  | .null, _ => false
  | _, .null => false
  | a, b =>
    match toFloat a, toFloat b with
    | some x, some y => x == y
    | _, _ => goString a == goString b

/-- Nullity test used to phrase the specification side of equality. -/
def Value.isNull : Value → Bool
  | .null => true
  | _ => false

/-- Equality as the specification words it: true when both operands are null,
false when exactly one is null, numeric equality when both coerce to numbers,
otherwise equality of string representations. -/
def eqSpec (a b : Value) : Bool :=
  if a.isNull && b.isNull then true
  else if a.isNull || b.isNull then false
  else
    match toFloat a, toFloat b with
    | some x, some y => x == y
    | _, _ => goString a == goString b

/-- External primitives of the Go standard library that the engine calls:
`time.Parse` over the three accepted formats (as seconds since the Unix
epoch), `regexp.Compile`/`MatchString` (`none` models a compile error), and
`time.Now`.  The whole development is parameterized over them. -/
structure GoPrims where
  parseDate : String → Option Int
  regexMatch : String → String → Option Bool
  now : Int

/-- Translation of `parseDate` (operators.go) on JSON values: only strings
can parse as dates.  (The Go function also accepts a `time.Time` argument,
which can never occur among unmarshalled JSON values.) -/
def parseDateV (p : GoPrims) : Value → Option Int
  | .str s => p.parseDate s
  | _ => none

/-- Error kind constant of validate.go. -/
def errTypeMismatch : String := "type_mismatch"

/-- Error kind constant of validate.go. -/
def errMissingRequired : String := "missing_required"

/-- Error kind constant of validate.go. -/
def errConstraintViolation : String := "constraint_violation"

/-- Error kind constant of validate.go. -/
def errAttestationIncomplete : String := "attestation_incomplete"

/-- Error kind constant of resolver.go. -/
def errRuntimeWarning : String := "runtime_warning"

/-- Error kind constant of resolver.go. -/
def errCycleDetected : String := "cycle_detected"

/-- Document status constant. -/
def statusReady : String := "READY"

/-- Document status constant. -/
def statusIncomplete : String := "INCOMPLETE"

/-- Document status constant. -/
def statusInvalid : String := "INVALID"

/-- Translation of `Definition` (schema.go): a typed field with value,
constraints and UI metadata.  `value = null` is the Go nil interface,
meaning "not set".  `visible` is a `*bool` in the current source (nil =
unset, defaulted to true by `Run`).  `options = none` is the nil slice
(no restriction), distinct from an empty list. -/
structure Definition where
  type : String := ""
  value : Value := .null
  options : Option (List String) := none
  label : String := ""
  required : Bool := false
  readonly : Bool := false
  visible : Option Bool := none
  min : Option Rat := none
  max : Option Rat := none
  step : Option Rat := none
  minLength : Option Int := none
  maxLength : Option Int := none
  pattern : String := ""
  uiClass : String := ""
  uiMessage : String := ""

/-- Translation of `Action` (schema.go): value assignments, UI mutations and
an optional emitted error with an optional caller-specified kind. -/
structure Action where
  set : Option (List (String × Value)) := none
  uiModify : Option (List (String × Value)) := none
  errorMsg : String := ""
  errorKind : String := ""

/-- Translation of `Rule` (schema.go).  `thenAction` is the `then` field
(`then` is reserved in Lean). -/
structure Rule where
  id : String := ""
  lawRef : String := ""
  logicVersion : String := ""
  when : Value := .obj .nil
  thenAction : Option Action := none
  disabled : Bool := false

/-- Translation of `TemporalBranch` (schema.go): `valid_range` is the Go
`[2]*string`, split into its two cells. -/
structure TemporalBranch where
  validRangeStart : Option String := none
  validRangeEnd : Option String := none
  logicVersion : String := ""
  status : String := ""

/-- Translation of `DerivedDef` (schema.go): `eval = none` models the nil
map. -/
structure DerivedDef where
  eval : Option Value := none

/-- Translation of `StateModel` (schema.go).  `derived` is a Go map; the
list order models its (unspecified) iteration order, and entries may hold
nil pointers. -/
structure StateModel where
  inputs : List String := []
  derived : List (String × Option DerivedDef) := []

/-- Translation of `Evidence` (schema.go). -/
structure Evidence where
  providerAuditId : String := ""
  timestamp : String := ""
  signerId : String := ""
  logicVersion : String := ""

/-- Translation of `Attestation` (schema.go). -/
structure Attestation where
  lawRef : String := ""
  statement : String := ""
  requiredRole : String := ""
  provider : String := ""
  required : Bool := false
  signed : Bool := false
  evidence : Option Evidence := none
  onSign : Option Action := none

/-- Translation of `ValidationError` (schema.go, current revision with the
`kind` tag). -/
structure VError where
  fieldId : String := ""
  ruleId : String := ""
  kind : String := ""
  message : String := ""
  lawRef : String := ""

/-- Translation of `Schema` (schema.go).  Go maps become association lists
whose order models the map's (unspecified) iteration order; map entries are
pointers, hence the `Option` payloads. -/
structure Schema where
  protocol : String := ""
  schemaId : String := ""
  version : String := ""
  validFrom : String := ""
  definitions : List (String × Option Definition) := []
  attestations : List (String × Option Attestation) := []
  logicTree : List (Option Rule) := []
  temporalMap : List (Option TemporalBranch) := []
  stateModel : Option StateModel := none
  errors : List VError := []
  status : String := ""

/-- Go map read `m[k]`: first matching entry. -/
def lookup {α : Type} (m : List (String × α)) (k : String) : Option α :=
  match m.find? (fun p => p.1 == k) with
  | some p => some p.2
  | none => none

/-- Go map write `m[k] = v`: replaces the first matching entry or appends a
new one. -/
def setKey {α : Type} : List (String × α) → String → α → List (String × α)
  | [], k, v => [(k, v)]
  | p :: rest, k, v => if p.1 == k then (k, v) :: rest else p :: setKey rest k v

/-- Translation of the `Engine` state (resolver.go): the working schema, the
accumulated errors, the field-to-rule write log for cycle detection, the
current collection element (`nil` when not inside some/all/none) and the
in-progress set of derived names. -/
structure Engine where
  schema : Schema
  errors : List VError := []
  fieldsSet : List (String × String) := []
  currentElement : Value := .null
  derivedInProgress : List String := []

/-- Translation of `NewEngine` (resolver.go). -/
def NewEngine (s : Schema) : Engine :=
  { schema := s }

/-- Translation of `Engine.addError` (resolver.go): appends one validation
error. -/
def addError (e : Engine) (fieldId ruleId kind message lawRef : String) : Engine :=
  { e with errors := e.errors ++ [{ fieldId := fieldId, ruleId := ruleId, kind := kind,
                                    message := message, lawRef := lawRef }] }

/-- Translation of `isValidOption` (validate.go): a nil options slice means
no restriction. -/
def isValidOption (value : String) (options : Option (List String)) : Bool :=
  match options with
  | none => true
  | some opts => opts.contains value

/-- Translation of `Engine.validateNumericConstraints` (validate.go).  (The
Go messages format the numbers with two forced decimals; the renderings here
use the plain shortest form.) -/
def validateNumericConstraints (e : Engine) (id : String) (value : Rat) (dfn : Definition) : Engine :=
  let e1 := match dfn.min with
    | some m => if value < m then
        addError e id "" errConstraintViolation
          ("Field " ++ id ++ " value " ++ goFormatNum value ++ " is below minimum " ++ goFormatNum m) ""
      else e
    | none => e
  match dfn.max with
  | some m => if value > m then
      addError e1 id "" errConstraintViolation
        ("Field " ++ id ++ " value " ++ goFormatNum value ++ " exceeds maximum " ++ goFormatNum m) ""
    else e1
  | none => e1

/-- Translation of `Engine.validateStringConstraints` (validate.go): length
bounds use the byte length, and the pattern check is skipped when the regex
does not compile. -/
def validateStringConstraints (p : GoPrims) (e : Engine) (id : String) (value : String) (dfn : Definition) : Engine :=
  let e1 := match dfn.minLength with
    | some m => if (value.utf8ByteSize : Int) < m then
        addError e id "" errConstraintViolation
          ("Field " ++ id ++ " is too short (minimum " ++ toString m ++ " characters)") ""
      else e
    | none => e
  let e2 := match dfn.maxLength with
    | some m => if (value.utf8ByteSize : Int) > m then
        addError e1 id "" errConstraintViolation
          ("Field " ++ id ++ " is too long (maximum " ++ toString m ++ " characters)") ""
      else e1
    | none => e1
  if dfn.pattern != "" then
    match p.regexMatch dfn.pattern value with
    | some false =>
      addError e2 id "" errConstraintViolation
        ("Field " ++ id ++ " does not match required pattern") ""
    | _ => e2
  else e2

/-- Truth test for the Go comparison `def.Value != true` on an interface
value. -/
def valueIsTrue : Value → Bool
  | .bool true => true
  | _ => false

/-- Translation of `Engine.validateType` (validate.go): scalar checks are
skipped for array values; unknown declared types check nothing. -/
def validateType (p : GoPrims) (e : Engine) (id : String) (dfn : Definition) : Engine :=
  let value := dfn.value
  if isSlice value then e
  else if dfn.type == "string" then
    match value with
    | .str s => validateStringConstraints p e id s dfn
    | _ => addError e id "" errTypeMismatch ("Field " ++ id ++ " must be a string") ""
  else if dfn.type == "number" || dfn.type == "currency" then
    match toFloat value with
    | some q => validateNumericConstraints e id q dfn
    | none => addError e id "" errTypeMismatch ("Field " ++ id ++ " must be a number") ""
  else if dfn.type == "boolean" then
    match value with
    | .bool _ => e
    | _ => addError e id "" errTypeMismatch ("Field " ++ id ++ " must be a boolean") ""
  else if dfn.type == "select" then
    match value with
    | .str s =>
      if isValidOption s dfn.options then e
      else addError e id "" errConstraintViolation
        ("Field " ++ id ++ " value " ++ s ++ " is not a valid option") ""
    | _ => addError e id "" errTypeMismatch ("Field " ++ id ++ " must be a string") ""
  else if dfn.type == "attestation" then
    match value with
    | .bool _ => e
    | _ => addError e id "" errTypeMismatch ("Attestation " ++ id ++ " must be a boolean") ""
  else if dfn.type == "date" then
    match parseDateV p value with
    | some _ => e
    | none => addError e id "" errTypeMismatch ("Field " ++ id ++ " must be a valid date") ""
  else e

/-- Per-entry step of `Engine.validateDefinitions` (validate.go). -/
def validateDefinitionsStep (p : GoPrims) (e : Engine) (entry : String × Option Definition) : Engine :=
  match entry.2 with
  | none => e
  | some dfn =>
    let id := entry.1
    let e1 :=
      if dfn.required then
        match dfn.value with
        | .null => addError e id "" errMissingRequired ("Required field " ++ id ++ " is missing") ""
        | .str s =>
          if (dfn.type == "string" || dfn.type == "select") && s == "" then
            addError e id "" errMissingRequired ("Required field " ++ id ++ " is missing") ""
          else e
        | _ => e
      else e
    match dfn.value with
    | .null => e1
    | _ => validateType p e1 id dfn

/-- Translation of `Engine.validateDefinitions` (validate.go): checks every
definition for required presence and type/constraint conformance,
accumulating all errors. -/
def validateDefinitions (p : GoPrims) (e : Engine) : Engine :=
  e.schema.definitions.foldl (validateDefinitionsStep p) e

/-- Translation of `Engine.determineStatus` (validate.go): three sequential
scans with early return — any type_mismatch wins, then any missing_required
or attestation_incomplete, then any constraint_violation, else READY. -/
def determineStatus (errs : List VError) : String :=
  if errs.any (fun er => er.kind == errTypeMismatch) then statusInvalid
  else if errs.any (fun er => er.kind == errMissingRequired || er.kind == errAttestationIncomplete) then statusIncomplete
  else if errs.any (fun er => er.kind == errConstraintViolation) then statusInvalid
  else statusReady

/-- Check of one temporal branch against its predecessor, translated from the
body of the loop in `Engine.validateTemporalMap` (temporal source file):
a zero-length range (identical start and end strings) is an error, and a
branch whose parsed start is not after the previous branch's parsed end is an
overlap error, with a missing or unparseable previous end treated as +infinity
(sentinel 2^62 - 1) and a missing or unparseable start as -infinity.  The
snapshot predates the `kind` tag, so these errors carry an empty kind. -/
def validateTemporalBranch (p : GoPrims) (e : Engine) (i : Nat)
    (prev : Option (Option TemporalBranch)) (br : TemporalBranch) : Engine :=
  let e1 :=
    match br.validRangeStart, br.validRangeEnd with
    | some s, some t =>
      if s == t then
        addError e "" "" ""
          ("Temporal branch " ++ toString i ++ " has same start and end date " ++ s ++ " (invalid range)") ""
      else e
    | _, _ => e
  match i, prev with
  | 0, _ => e1
  | _, some (some pbr) =>
    let prevEndTime : Int :=
      match pbr.validRangeEnd with
      | some es =>
        match p.parseDate es with
        | some t => t
        | none => 2 ^ 62 - 1
      | none => 2 ^ 62 - 1
    let currStartTime : Int :=
      match br.validRangeStart with
      | some ss =>
        match p.parseDate ss with
        | some t => t
        | none => -(2 ^ 62 - 1)
      | none => -(2 ^ 62 - 1)
    if currStartTime ≤ prevEndTime then
      addError e1 "" "" ""
        ("Temporal branch " ++ toString i ++ " overlaps with branch " ++ toString (i - 1) ++ " (ranges must not overlap)") ""
    else e1
  | _, _ => e1

/-- Loop of `Engine.validateTemporalMap`, carrying the index and the previous
list entry. -/
def validateTemporalMapGo (p : GoPrims) : Engine → Nat → Option (Option TemporalBranch) →
    List (Option TemporalBranch) → Engine
  | e, _, _, [] => e
  | e, i, prev, b :: rest =>
    let e1 :=
      match b with
      | none => e
      | some br => validateTemporalBranch p e i prev br
    validateTemporalMapGo p e1 (i + 1) (some b) rest

/-- Translation of `Engine.validateTemporalMap` (temporal source file):
records configuration errors for zero-length and overlapping branches without
aborting evaluation. -/
def validateTemporalMap (p : GoPrims) (e : Engine) : Engine :=
  if e.schema.temporalMap.isEmpty then e
  else validateTemporalMapGo p e 0 none e.schema.temporalMap

/-- Translation of `Engine.selectBranch` (temporal source file): the first
branch whose parseable start is not after the target and whose end, when
present and parseable, is not before the target. -/
def selectBranch (p : GoPrims) (targetDate : Int) : List (Option TemporalBranch) → Option TemporalBranch
  | [] => none
  | b :: rest =>
    match b with
    | none => selectBranch p targetDate rest
    | some br =>
      match br.validRangeStart with
      | none => selectBranch p targetDate rest
      | some ss =>
        match p.parseDate ss with
        | none => selectBranch p targetDate rest
        | some start =>
          if targetDate < start then selectBranch p targetDate rest
          else
            match br.validRangeEnd with
            | some es =>
              match p.parseDate es with
              | some endT =>
                if targetDate > endT then selectBranch p targetDate rest
                else some br
              | none => some br
            | none => some br

/-- Translation of `Engine.prune` (temporal source file): marks every rule
whose non-empty `logic_version` differs from the active branch's version as
disabled; rules without a version and nil entries are untouched. -/
def prune (e : Engine) (activeBranch : Option TemporalBranch) : Engine :=
  match activeBranch with
  | none => e
  | some br =>
    let activeVersion := br.logicVersion
    let pruneRule : Option Rule → Option Rule := fun r =>
      match r with
      | none => none
      | some rule =>
        if rule.logicVersion == "" then some rule
        else if rule.logicVersion != activeVersion then some { rule with disabled := true }
        else some rule
    let newTree := e.schema.logicTree.map pruneRule
    { e with schema := { e.schema with logicTree := newTree } }

/-- Result monad of the model: `Except.error` carries the message of a Go
runtime panic (nil-pointer dereference), which the public entry points
recover from. -/
abbrev EM (α : Type) : Type := Except String α

/-- Message of the Go nil-pointer panic. -/
def nilDeref : String := "runtime error: invalid memory address or nil pointer dereference"

/-- Type of the recursive resolver knot passed to the operator helpers. -/
abbrev Resolver : Type := Engine → Value → EM (Engine × Value)

/-- Lookup of one entry of a JSON object. -/
def fieldsLookup : Fields → String → Option Value
  | .nil, _ => none
  | .cons k v fs, key => if k == key then some v else fieldsLookup fs key

/-- Translation of `Engine.accessPath` (resolver.go): traverses nested
objects along the remaining path parts, yielding null on any missing
segment or non-object intermediate. -/
def accessPath (value : Value) : List String → Value
  | [] => value
  | part :: rest =>
    match value with
    | .null => .null
    | .obj fs =>
      match fieldsLookup fs part with
      | none => .null
      | some next => accessPath next rest
    | _ => .null

/-- Character-level split for `strings.Split(path, ".")`. -/
def splitChars (sep : Char) : List Char → List (List Char)
  | [] => [[]]
  | c :: rest =>
    let r := splitChars sep rest
    if c == sep then [] :: r
    else
      match r with
      | h :: t => (c :: h) :: t
      | [] => [[c]]

/-- Split of a dotted path into its parts, as `strings.Split(path, ".")`. -/
def splitDot (path : String) : List String :=
  (splitChars '.' path.data).map (fun cs => String.mk cs)

/-- The derived-map entry for a root name, through the nil checks on
`state_model` (the first lookup `Engine.getVar` performs). -/
def derivedEntryOf (e : Engine) (root : String) : Option (Option DerivedDef) :=
  match e.schema.stateModel with
  | none => none
  | some sm => lookup sm.derived root

/-- Translation of `Engine.getVar` (resolver.go): the empty path returns the
current collection element; a derived root re-evaluates its expression under
the in-progress guard (cycle errors yield null); otherwise the definition
value is read; an unknown root yields null, with a runtime_warning exactly
when the current element is nil.  Dereferencing a nil derived or definition
entry is the Go panic. -/
def getVar (rsv : Resolver) (e : Engine) (path : String) : EM (Engine × Value) :=
  if path == "" then pure (e, e.currentElement)
  else
    match splitDot path with
    | [] => pure (e, .null)
    | root :: restParts =>
      match derivedEntryOf e root with
      | some dd =>
        if e.derivedInProgress.contains root then
          pure (addError e "" "" errCycleDetected
            ("Circular dependency detected in derived field " ++ root) "", .null)
        else
          match dd with
          | none => throw nilDeref
          | some d => do
            let e1 := { e with derivedInProgress := root :: e.derivedInProgress }
            let (e2, result) ← rsv e1 (match d.eval with
              | some ev => ev
              | none => .obj .nil)
            let e3 := { e2 with derivedInProgress := e2.derivedInProgress.erase root }
            if restParts.isEmpty then pure (e3, result)
            else pure (e3, accessPath result restParts)
      | none =>
        match lookup e.schema.definitions root with
        | some none => throw nilDeref
        | some (some dfn) =>
          if restParts.isEmpty then pure (e, dfn.value)
          else pure (e, accessPath dfn.value restParts)
        | none =>
          if e.currentElement.isNull then
            pure (addError e "" "" errRuntimeWarning
              ("Undefined variable " ++ root ++ " in logic expression") "", .null)
          else pure (e, .null)

/-- Resolution of up to two arguments per `Engine.resolveArgs` with
`expected = 2`: missing positions stay nil, surplus positions are not
resolved, and a non-array argument fills only the first slot. -/
def resolveArgs2 (rsv : Resolver) (e : Engine) (args : Value) : EM (Engine × Value × Value) :=
  match args with
  | .arr va =>
    match va.toList with
    | [] => pure (e, .null, .null)
    | [a] => do
      let (e1, x) ← rsv e a
      pure (e1, x, .null)
    | a :: b :: _ => do
      let (e1, x) ← rsv e a
      let (e2, y) ← rsv e1 b
      pure (e2, x, y)
  | _ => do
    let (e1, x) ← rsv e args
    pure (e1, x, .null)

/-- Resolution of one argument per `Engine.resolveArgs` with `expected = 1`. -/
def resolveArgs1 (rsv : Resolver) (e : Engine) (args : Value) : EM (Engine × Value) :=
  match args with
  | .arr va =>
    match va.toList with
    | [] => pure (e, .null)
    | a :: _ => rsv e a
  | _ => rsv e args

/-- Translation of `Engine.compareNumeric` (operators.go): false when either
operand is nil or not numeric. -/
def compareNumeric (a b : Value) (cmp : Rat → Rat → Bool) : Bool :=
  if a.isNull || b.isNull then false
  else
    match toFloat a, toFloat b with
    | some x, some y => cmp x y
    | _, _ => false

/-- Translation of `Engine.compareDates` (operators.go): false when either
operand is nil or unparseable. -/
def compareDates (p : GoPrims) (a b : Value) (cmp : Int → Int → Bool) : Bool :=
  match parseDateV p a, parseDateV p b with
  | some x, some y => cmp x y
  | _, _ => false

/-- Translation of `Engine.opAdd` (operators.go). -/
def opAdd (a b : Value) : Value :=
  if a.isNull || b.isNull then .null
  else
    match toFloat a, toFloat b with
    | some x, some y => .num (qAdd x y)
    | _, _ => .null

/-- Translation of `Engine.opSubtract` (operators.go). -/
def opSubtract (a b : Value) : Value :=
  if a.isNull || b.isNull then .null
  else
    match toFloat a, toFloat b with
    | some x, some y => .num (qSub x y)
    | _, _ => .null

/-- Translation of `Engine.opMultiply` (operators.go). -/
def opMultiply (a b : Value) : Value :=
  if a.isNull || b.isNull then .null
  else
    match toFloat a, toFloat b with
    | some x, some y => .num (qMul x y)
    | _, _ => .null

/-- Translation of `Engine.opDivide` (operators.go): nil on a zero divisor. -/
def opDivide (a b : Value) : Value :=
  if a.isNull || b.isNull then .null
  else
    match toFloat a, toFloat b with
    | some x, some y => if y == 0 then .null else .num (qDiv x y)
    | _, _ => .null

/-- Boolean prefix test on char lists (for `strings.Contains`). -/
def charsStartWith : List Char → List Char → Bool
  | [], _ => true
  | _ :: _, [] => false
  | a :: as, b :: bs => a == b && charsStartWith as bs

/-- Boolean infix test on char lists (for `strings.Contains`). -/
def charsContain (needle : List Char) : List Char → Bool
  | [] => charsStartWith needle []
  | c :: rest => charsStartWith needle (c :: rest) || charsContain needle rest

/-- Translation of `Engine.opIn` (operators.go): membership under the engine
equality in an array, or substring containment in a string. -/
def opIn (needle haystack : Value) : Bool :=
  if needle.isNull || haystack.isNull then false
  else
    match haystack with
    | .arr items => items.toList.any (fun item => compareEqual needle item)
    | .str h =>
      match needle with
      | .str n => charsContain n.data h.data
      | _ => false
    | _ => false

/-- Translation of `Engine.evalWithContext` (operators.go): evaluates the
predicate with the current element temporarily bound, restoring the previous
element afterwards so that nested collection operators compose. -/
def evalWithContext (rsv : Resolver) (e : Engine) (condition : Value) (contextValue : Value) :
    EM (Engine × Bool) := do
  let oldContext := e.currentElement
  let e1 := { e with currentElement := contextValue }
  let (e2, r) ← rsv e1 condition
  let result := isTruthy r
  let e3 := { e2 with currentElement := oldContext }
  pure (e3, result)

/-- Short-circuiting element loop of `Engine.opSome`. -/
def someLoop (rsv : Resolver) (condition : Value) : Engine → List Value → EM (Engine × Value)
  | e, [] => pure (e, .bool false)
  | e, item :: rest => do
    let (e1, b) ← evalWithContext rsv e condition item
    if b then pure (e1, .bool true) else someLoop rsv condition e1 rest

/-- Short-circuiting element loop of `Engine.opAll`. -/
def allLoop (rsv : Resolver) (condition : Value) : Engine → List Value → EM (Engine × Value)
  | e, [] => pure (e, .bool true)
  | e, item :: rest => do
    let (e1, b) ← evalWithContext rsv e condition item
    if b then allLoop rsv condition e1 rest else pure (e1, .bool false)

/-- Short-circuiting element loop of `Engine.opNone`. -/
def noneLoop (rsv : Resolver) (condition : Value) : Engine → List Value → EM (Engine × Value)
  | e, [] => pure (e, .bool true)
  | e, item :: rest => do
    let (e1, b) ← evalWithContext rsv e condition item
    if b then pure (e1, .bool false) else noneLoop rsv condition e1 rest

/-- Translation of `Engine.opSome` (operators.go): false on a malformed
argument list, a non-array collection or an empty collection. -/
def opSome (rsv : Resolver) (e : Engine) (args : Value) : EM (Engine × Value) :=
  match args with
  | .arr va =>
    match va.toList with
    | a0 :: a1 :: _ => do
      let (e1, collection) ← rsv e a0
      match collection with
      | .arr items =>
        if items.toList.isEmpty then pure (e1, .bool false)
        else someLoop rsv a1 e1 items.toList
      | _ => pure (e1, .bool false)
    | _ => pure (e, .bool false)
  | _ => pure (e, .bool false)

/-- Translation of `Engine.opAll` (operators.go): vacuously true on an empty
collection, false on a malformed argument list or non-array collection. -/
def opAll (rsv : Resolver) (e : Engine) (args : Value) : EM (Engine × Value) :=
  match args with
  | .arr va =>
    match va.toList with
    | a0 :: a1 :: _ => do
      let (e1, collection) ← rsv e a0
      match collection with
      | .arr items =>
        if items.toList.isEmpty then pure (e1, .bool true)
        else allLoop rsv a1 e1 items.toList
      | _ => pure (e1, .bool false)
    | _ => pure (e, .bool false)
  | _ => pure (e, .bool false)

/-- Translation of `Engine.opNone` (operators.go): vacuously true on an
empty collection, false on a malformed argument list or non-array
collection. -/
def opNone (rsv : Resolver) (e : Engine) (args : Value) : EM (Engine × Value) :=
  match args with
  | .arr va =>
    match va.toList with
    | a0 :: a1 :: _ => do
      let (e1, collection) ← rsv e a0
      match collection with
      | .arr items =>
        if items.toList.isEmpty then pure (e1, .bool true)
        else noneLoop rsv a1 e1 items.toList
      | _ => pure (e1, .bool false)
    | _ => pure (e, .bool false)
  | _ => pure (e, .bool false)

/-- Short-circuiting loop of `Engine.opAnd`. -/
def andLoop (rsv : Resolver) : Engine → List Value → EM (Engine × Value)
  | e, [] => pure (e, .bool true)
  | e, a :: rest => do
    let (e1, v) ← rsv e a
    if isTruthy v then andLoop rsv e1 rest else pure (e1, .bool false)

/-- Translation of `Engine.opAnd` (operators.go): short-circuits on the first
falsy argument; a non-array argument is truth-tested directly. -/
def opAnd (rsv : Resolver) (e : Engine) (args : Value) : EM (Engine × Value) :=
  match args with
  | .arr va => andLoop rsv e va.toList
  | _ => do
    let (e1, v) ← rsv e args
    pure (e1, .bool (isTruthy v))

/-- Short-circuiting loop of `Engine.opOr`. -/
def orLoop (rsv : Resolver) : Engine → List Value → EM (Engine × Value)
  | e, [] => pure (e, .bool false)
  | e, a :: rest => do
    let (e1, v) ← rsv e a
    if isTruthy v then pure (e1, .bool true) else orLoop rsv e1 rest

/-- Translation of `Engine.opOr` (operators.go). -/
def opOr (rsv : Resolver) (e : Engine) (args : Value) : EM (Engine × Value) :=
  match args with
  | .arr va => orLoop rsv e va.toList
  | _ => do
    let (e1, v) ← rsv e args
    pure (e1, .bool (isTruthy v))

/-- Condition-branch loop of `Engine.opIf`: pairs of (condition, branch)
with an optional trailing else. -/
def ifLoop (rsv : Resolver) : Engine → List Value → EM (Engine × Value)
  | e, [] => pure (e, .null)
  | e, [x] => rsv e x
  | e, c :: t :: rest => do
    let (e1, cv) ← rsv e c
    if isTruthy cv then rsv e1 t else ifLoop rsv e1 rest

/-- Translation of `Engine.opIf` (operators.go): nil on fewer than two
arguments or a non-array argument. -/
def opIf (rsv : Resolver) (e : Engine) (args : Value) : EM (Engine × Value) :=
  match args with
  | .arr va =>
    let l := va.toList
    if l.length < 2 then pure (e, .null) else ifLoop rsv e l
  | _ => pure (e, .null)

/-- Translation of `Engine.executeOperator` (operators.go): the fixed
operator table; an unknown operator records a runtime_warning and yields
nil. -/
def executeOperator (p : GoPrims) (rsv : Resolver) (e : Engine) (op : String) (args : Value) :
    EM (Engine × Value) :=
  if op == "var" then
    match args with
    | .str path => getVar rsv e path
    | _ => pure (e, .null)
  else if op == "==" then do
    let (e1, x, y) ← resolveArgs2 rsv e args
    pure (e1, .bool (compareEqual x y))
  else if op == "!=" then do
    let (e1, x, y) ← resolveArgs2 rsv e args
    pure (e1, .bool (! compareEqual x y))
  else if op == ">" then do
    let (e1, x, y) ← resolveArgs2 rsv e args
    pure (e1, .bool (compareNumeric x y (fun a b => decide (a > b))))
  else if op == "<" then do
    let (e1, x, y) ← resolveArgs2 rsv e args
    pure (e1, .bool (compareNumeric x y (fun a b => decide (a < b))))
  else if op == ">=" then do
    let (e1, x, y) ← resolveArgs2 rsv e args
    pure (e1, .bool (compareNumeric x y (fun a b => decide (a ≥ b))))
  else if op == "<=" then do
    let (e1, x, y) ← resolveArgs2 rsv e args
    pure (e1, .bool (compareNumeric x y (fun a b => decide (a ≤ b))))
  else if op == "and" then opAnd rsv e args
  else if op == "or" then opOr rsv e args
  else if op == "not" || op == "!" then do
    let (e1, x) ← resolveArgs1 rsv e args
    pure (e1, .bool (! isTruthy x))
  else if op == "if" then opIf rsv e args
  else if op == "+" then do
    let (e1, x, y) ← resolveArgs2 rsv e args
    pure (e1, opAdd x y)
  else if op == "-" then do
    let (e1, x, y) ← resolveArgs2 rsv e args
    pure (e1, opSubtract x y)
  else if op == "*" then do
    let (e1, x, y) ← resolveArgs2 rsv e args
    pure (e1, opMultiply x y)
  else if op == "/" then do
    let (e1, x, y) ← resolveArgs2 rsv e args
    pure (e1, opDivide x y)
  else if op == "before" then do
    let (e1, x, y) ← resolveArgs2 rsv e args
    pure (e1, .bool (compareDates p x y (fun a b => decide (a < b))))
  else if op == "after" then do
    let (e1, x, y) ← resolveArgs2 rsv e args
    pure (e1, .bool (compareDates p x y (fun a b => decide (a > b))))
  else if op == "in" then do
    let (e1, x, y) ← resolveArgs2 rsv e args
    pure (e1, .bool (opIn x y))
  else if op == "some" then opSome rsv e args
  else if op == "all" then opAll rsv e args
  else if op == "none" then opNone rsv e args
  else
    pure (addError e "" "" errRuntimeWarning
      ("Unknown operator " ++ op ++ " in logic expression") "", .null)

/-- Element loop of the array-literal case of `Engine.resolve`. -/
def resolveElems (rsv : Resolver) : Engine → List Value → EM (Engine × List Value)
  | e, [] => pure (e, [])
  | e, v :: vs => do
    let (e1, r) ← rsv e v
    let (e2, rs) ← resolveElems rsv e1 vs
    pure (e2, r :: rs)

/-- Translation of `Engine.resolve` (resolver.go), with a depth fuel: a
single-key object applies its operator, any other object is a literal,
arrays resolve element-wise, scalars are literals.  The fuel charged per
recursion level strictly exceeds every reachable recursion depth at the
call sites (see `schemaFuel`), so the fuel-exhausted branch is never
taken there. -/
def resolveF (p : GoPrims) : Nat → Engine → Value → EM (Engine × Value)
  | 0, e, _ => pure (e, .null)
  | f + 1, e, node =>
    match node with
    | .null => pure (e, .null)
    | .obj (.cons op args .nil) => executeOperator p (resolveF p f) e op args
    | .obj fs => pure (e, .obj fs)
    | .arr xs => do
      let (e1, rs) ← resolveElems (resolveF p f) e xs.toList
      pure (e1, .arr (valsOf rs))
    | v => pure (e, v)

/-- Translation of `inferType` (engine source file): values created by rules
or derived passes get string, number or boolean, defaulting to string. -/
def inferType : Value → String
  | .str _ => "string"
  | .num _ => "number"
  | .bool _ => "boolean"
  | _ => "string"

/-- Translation of `Engine.setDefinitionValue` (engine source file): records
a cycle_detected error when a different rule already wrote the field, then
writes the value, creating a visible definition with an inferred type when
the field does not exist.  Writing through a nil definition entry is the Go
panic. -/
def setDefinitionValue (e : Engine) (key : String) (value : Value) (ruleID : String) : EM Engine := do
  let e1 :=
    match lookup e.fieldsSet key with
    | some prevRule =>
      if prevRule != ruleID then
        addError e key ruleID errCycleDetected
          ("potential cycle: field " ++ key ++ " set by rule " ++ prevRule ++
            " and again by rule " ++ ruleID) ""
      else e
    | none => e
  let e2 := { e1 with fieldsSet := setKey e1.fieldsSet key ruleID }
  match lookup e2.schema.definitions key with
  | none =>
    let newDef : Definition :=
      { type := inferType value, value := value, visible := some true }
    pure { e2 with schema :=
      { e2.schema with definitions := setKey e2.schema.definitions key (some newDef) } }
  | some none => throw nilDeref
  | some (some d) =>
    pure { e2 with schema :=
      { e2.schema with definitions := setKey e2.schema.definitions key (some { d with value := value }) } }

/-- Conversion of a Go `float64` to `int` (truncation toward zero), used for
the length constraints of `ui_modify`. -/
def truncInt (q : Rat) : Int :=
  q.num.tdiv (q.den : Int)

/-- Option-level `toFloat`, matching `toFloat(modMap[k])` on a possibly
missing key. -/
def toFloatO : Option Value → Option Rat
  | some v => toFloat v
  | none => none

/-- Translation of `Engine.applyUIModify` (engine source file): overwrites
the recognized UI and constraint attributes of an existing definition;
missing targets, nil entries and non-object modification maps are ignored. -/
def applyUIModify (e : Engine) (key : String) (mods : Value) : Engine :=
  match lookup e.schema.definitions key with
  | none => e
  | some none => e
  | some (some d) =>
    match mods with
    | .obj fs =>
      let mm := fs.toList
      let d := match lookup mm "visible" with
        | some (.bool b) => { d with visible := some b }
        | _ => d
      let d := match lookup mm "ui_class" with
        | some (.str s) => { d with uiClass := s }
        | _ => d
      let d := match lookup mm "ui_message" with
        | some (.str s) => { d with uiMessage := s }
        | _ => d
      let d := match lookup mm "required" with
        | some (.bool b) => { d with required := b }
        | _ => d
      let d := match toFloatO (lookup mm "min") with
        | some q => { d with min := some q }
        | none => d
      let d := match toFloatO (lookup mm "max") with
        | some q => { d with max := some q }
        | none => d
      let d := match toFloatO (lookup mm "step") with
        | some q => { d with step := some q }
        | none => d
      let d := match lookup mm "min_length" with
        | some (.num q) => { d with minLength := some (truncInt q) }
        | _ => d
      let d := match lookup mm "max_length" with
        | some (.num q) => { d with maxLength := some (truncInt q) }
        | _ => d
      let d := match lookup mm "pattern" with
        | some (.str s) => { d with pattern := s }
        | _ => d
      { e with schema := { e.schema with definitions := setKey e.schema.definitions key (some d) } }
    | _ => e

/-- Loop over the `set` entries of an action. -/
def applySetEntries (p : GoPrims) (fuel : Nat) (ruleID : String) :
    Engine → List (String × Value) → EM Engine
  | e, [] => pure e
  | e, (key, value) :: rest => do
    let (e1, resolvedValue) ← resolveF p fuel e value
    let e2 ← setDefinitionValue e1 key resolvedValue ruleID
    applySetEntries p fuel ruleID e2 rest

/-- Translation of `Engine.applyAction` (engine source file): resolves and
assigns every `set` entry, applies every `ui_modify` entry, and emits the
optional error with the caller-specified kind, defaulting to
constraint_violation. -/
def applyAction (p : GoPrims) (fuel : Nat) (e : Engine) (action : Option Action)
    (ruleID lawRef : String) : EM Engine :=
  match action with
  | none => pure e
  | some act => do
    let e1 ← match act.set with
      | some entries => applySetEntries p fuel ruleID e entries
      | none => pure e
    let e2 := match act.uiModify with
      | some entries => entries.foldl (fun acc q => applyUIModify acc q.1 q.2) e1
      | none => e1
    if act.errorMsg != "" then
      let kind := if act.errorKind == "" then errConstraintViolation else act.errorKind
      pure (addError e2 "" ruleID kind act.errorMsg lawRef)
    else pure e2

/-- Rule loop of `Engine.evaluateLogicTree` (engine source file): nil and
disabled rules are skipped; otherwise the condition is resolved and, when
truthy, the action applied. -/
def evalRules (p : GoPrims) (fuel : Nat) : Engine → List (Option Rule) → EM Engine
  | e, [] => pure e
  | e, r :: rest =>
    match r with
    | none => evalRules p fuel e rest
    | some rule =>
      if rule.disabled then evalRules p fuel e rest
      else do
        let (e1, condition) ← resolveF p fuel e rule.when
        if isTruthy condition then do
          let e2 ← applyAction p fuel e1 rule.thenAction rule.id rule.lawRef
          evalRules p fuel e2 rest
        else evalRules p fuel e1 rest

/-- Translation of `Engine.evaluateLogicTree` (engine source file). -/
def evaluateLogicTree (p : GoPrims) (fuel : Nat) (e : Engine) : EM Engine :=
  evalRules p fuel e e.schema.logicTree

/-- The definition write performed for one derived entry by
`Engine.computeDerived` (engine source file): existing metadata is kept
(visibility defaults to true), the value is replaced and the field is
marked readonly; a missing or nil entry becomes a fresh readonly, visible
definition with an inferred type. -/
def derivedWrite (e1 : Engine) (name : String) (value : Value) : Engine :=
  match lookup e1.schema.definitions name with
  | some (some existing) =>
    let vis := match existing.visible with
      | none => some true
      | some b => some b
    let upd := { existing with value := value, readonly := true, visible := vis }
    { e1 with schema :=
      { e1.schema with definitions := setKey e1.schema.definitions name (some upd) } }
  | _ =>
    let newDef : Definition :=
      { type := inferType value, value := value, readonly := true, visible := some true }
    { e1 with schema :=
      { e1.schema with definitions := setKey e1.schema.definitions name (some newDef) } }

/-- Entry loop of `Engine.computeDerived` (engine source file). -/
def computeDerivedGo (p : GoPrims) (fuel : Nat) :
    Engine → List (String × Option DerivedDef) → EM Engine
  | e, [] => pure e
  | e, (name, dd) :: rest =>
    match dd with
    | none => computeDerivedGo p fuel e rest
    | some d =>
      match d.eval with
      | none => computeDerivedGo p fuel e rest
      | some ev => do
        let r ← resolveF p fuel e ev
        computeDerivedGo p fuel (derivedWrite r.1 name r.2) rest

/-- Translation of `Engine.computeDerived` (engine source file): evaluates
every derived entry with a non-nil eval in the map's iteration order,
storing the result as a readonly definition that preserves existing
metadata. -/
def computeDerived (p : GoPrims) (fuel : Nat) (e : Engine) : EM Engine :=
  match e.schema.stateModel with
  | none => pure e
  | some sm => computeDerivedGo p fuel e sm.derived

/-- Legacy attestation loop of `Engine.checkAttestations` (validate.go):
attestation-typed definitions that are required and not `true`. -/
def checkLegacyAttestations (e : Engine) : Engine :=
  e.schema.definitions.foldl
    (fun acc entry =>
      match entry.2 with
      | none => acc
      | some dfn =>
        if dfn.type != "attestation" then acc
        else if dfn.required && ! valueIsTrue dfn.value then
          addError acc entry.1 "" errAttestationIncomplete
            ("Required attestation " ++ entry.1 ++ " not confirmed") ""
        else acc)
    e

/-- Rich attestation loop of `Engine.checkAttestations` (validate.go):
executes `on_sign` actions of signed attestations and records
attestation_incomplete for required attestations that are unsigned or lack
a provider audit id. -/
def checkRichAttestations (p : GoPrims) (fuel : Nat) :
    Engine → List (String × Option Attestation) → EM Engine
  | e, [] => pure e
  | e, (id, att) :: rest =>
    match att with
    | none => checkRichAttestations p fuel e rest
    | some a => do
      let e1 ←
        if a.signed && ! a.onSign.isNone then
          applyAction p fuel e a.onSign ("attestation_" ++ id) a.lawRef
        else pure e
      let e2 :=
        if a.required then
          if ! a.signed then
            addError e1 id "" errAttestationIncomplete
              ("Required attestation " ++ id ++ " not signed") a.lawRef
          else
            match a.evidence with
            | none =>
              addError e1 id "" errAttestationIncomplete
                ("Attestation " ++ id ++ " signed but missing evidence") a.lawRef
            | some evd =>
              if evd.providerAuditId == "" then
                addError e1 id "" errAttestationIncomplete
                  ("Attestation " ++ id ++ " signed but missing evidence") a.lawRef
              else e1
        else e1
      checkRichAttestations p fuel e2 rest

/-- Translation of `Engine.checkAttestations` (validate.go). -/
def checkAttestations (p : GoPrims) (fuel : Nat) (e : Engine) : EM Engine :=
  let e1 := checkLegacyAttestations e
  checkRichAttestations p fuel e1 e1.schema.attestations

mutual

/-- Structural size of a value, used for the resolver depth fuel. -/
def sizeV : Value → Nat
  | .null => 1
  | .bool _ => 1
  | .num _ => 1
  | .str _ => 1
  | .arr xs => 1 + sizeVals xs
  | .obj fs => 1 + sizeFields fs

/-- Structural size of array elements. -/
def sizeVals : Vals → Nat
  | .nil => 0
  | .cons v vs => 1 + sizeV v + sizeVals vs

/-- Structural size of object entries. -/
def sizeFields : Fields → Nat
  | .nil => 0
  | .cons _ v fs => 1 + sizeV v + sizeFields fs

end

/-- Total size of the expressions of an action's `set` mapping. -/
def actionSize : Option Action → Nat
  | none => 0
  | some a =>
    match a.set with
    | none => 1
    | some entries => 1 + (entries.map (fun q => sizeV q.2 + 1)).sum

/-- Total expression size of a rule. -/
def ruleSize : Option Rule → Nat
  | none => 0
  | some r => sizeV r.when + actionSize r.thenAction + 1

/-- Total expression size of a derived entry. -/
def derivedEntrySize : String × Option DerivedDef → Nat
  | (_, none) => 0
  | (_, some d) =>
    match d.eval with
    | none => 0
    | some ev => sizeV ev + 1

/-- Depth fuel for one call of `Run`: the in-progress guard bounds derived
re-entry, so the recursion depth of any resolver call is at most the size of
the expression at hand plus the total size of all derived expressions; the
sum below strictly dominates that for every expression reachable from the
schema. -/
def schemaFuel (s : Schema) : Nat :=
  let dtot := match s.stateModel with
    | none => 0
    | some sm => (sm.derived.map derivedEntrySize).sum
  let rtot := (s.logicTree.map ruleSize).sum
  let atot := (s.attestations.map (fun q =>
    match q.2 with
    | none => 0
    | some a => actionSize a.onSign)).sum
  2 * dtot + rtot + atot + 16

/-- Default-visibility initialization of `Run` step 1: every non-nil
definition with an unset `visible` pointer gets `true`. -/
def initVisibility (defs : List (String × Option Definition)) : List (String × Option Definition) :=
  defs.map (fun entry =>
    match entry.2 with
    | some dfn =>
      if dfn.visible.isNone then (entry.1, some { dfn with visible := some true })
      else (entry.1, some dfn)
    | none => (entry.1, none))

/-- Steps 2 through 6 of `Run` (engine source file): temporal validation and
pruning, first derived pass, rule pass, second derived pass, definition
validation, attestation checks.  Factored so that the final attachment of
errors and status is visible at the `runMain` level. -/
def runEngine (p : GoPrims) (s1 : Schema) (fuel : Nat) (date : Int) : EM Engine := do
  let e0 := NewEngine s1
  let e1 :=
    if s1.temporalMap.length > 0 then
      let ev := validateTemporalMap p e0
      match selectBranch p date ev.schema.temporalMap with
      | some br => prune ev (some br)
      | none => ev
    else e0
  let e2 ← computeDerived p fuel e1
  let e3 ← evaluateLogicTree p fuel e2
  let e4 ← computeDerived p fuel e3
  let e5 := validateDefinitions p e4
  checkAttestations p fuel e5

/-- Step 1 of `Run`: the working document with defaulted visibility. -/
def initSchema (s : Schema) : Schema :=
  { s with definitions := initVisibility s.definitions }

/-- Step 7 of `Run`: the engine's errors and the determined status attached
to the working document. -/
def attachResult (e6 : Engine) : Schema :=
  { e6.schema with errors := e6.errors, status := determineStatus e6.errors }

/-- Body of `Run` (engine source file) between the recover wrapper and the
final marshal: visibility defaults, the engine steps, then errors and status
attached to the document.  JSON (un)marshalling of the structured document
is the identity here. -/
def runMain (p : GoPrims) (s : Schema) (date : Int) : EM Schema := do
  let e6 ← runEngine p (initSchema s) (schemaFuel (initSchema s)) date
  pure (attachResult e6)

/-- Outcome of the public `Run`: a transformed document or an error string
(the recovered panic). -/
inductive RunResult where
  | ok : Schema → RunResult
  | err : String → RunResult

/-- Translation of the public `Run` (engine source file): the deferred
recover turns any internal panic into an error return instead of a crash. -/
def Run (p : GoPrims) (s : Schema) (date : Int) : RunResult :=
  match runMain p s date with
  | .ok r => .ok r
  | .error m => .err ("internal error: " ++ m)

/-- Verify issue code constant. -/
def verifyUnknownField : String := "unknown_field"

/-- Verify issue code constant. -/
def verifyComputedMismatch : String := "computed_mismatch"

/-- Verify issue code constant. -/
def verifyAttestationUnsigned : String := "attestation_unsigned"

/-- Verify issue code constant. -/
def verifyAttestationNoEvidence : String := "attestation_no_evidence"

/-- Verify issue code constant. -/
def verifyAttestationNoTimestamp : String := "attestation_no_timestamp"

/-- Verify issue code constant. -/
def verifyStatusMismatch : String := "status_mismatch"

/-- Verify issue code constant. -/
def verifyConvergenceFailed : String := "convergence_failed"

/-- Verify issue code constant. -/
def verifyInternalError : String := "internal_error"

/-- Translation of `VerifyIssue` (engine source file); `expected`/`claimed`
are Go `any`, with null standing for the unset interface. -/
structure VerifyIssue where
  code : String := ""
  fieldId : String := ""
  message : String := ""
  expected : Value := .null
  claimed : Value := .null

/-- Translation of `VerifyResult` (engine source file). -/
structure VerifyResult where
  valid : Bool := false
  status : String := ""
  issues : List VerifyIssue := []
  error : String := ""
  schemaOut : Option Schema := none

/-- Translation of `getVisibleEditableFields` (engine source file): names of
non-nil definitions that are visible (set pointer, true) and not readonly. -/
def getVisibleEditableFields (s : Schema) : List String :=
  s.definitions.filterMap (fun entry =>
    match entry.2 with
    | some dfn => if dfn.visible == some true && ! dfn.readonly then some entry.1 else none
    | none => none)

/-- Names of visible fields (set pointer, true). -/
def visibleNames (s : Schema) : List String :=
  s.definitions.filterMap (fun entry =>
    match entry.2 with
    | some dfn => if dfn.visible == some true then some entry.1 else none
    | none => none)

/-- Lexicographic order on character lists. -/
def charListLe : List Char → List Char → Bool
  | [], _ => true
  | _ :: _, [] => false
  | a :: as, b :: bs =>
    if a.toNat < b.toNat then true
    else if b.toNat < a.toNat then false
    else charListLe as bs

/-- Lexicographic string order (code points), the order of `sort.Strings`. -/
def strLe (a b : String) : Bool := charListLe a.data b.data

/-- Insertion into a sorted string list (for `sort.Strings`). -/
def insertStr (x : String) : List String → List String
  | [] => [x]
  | y :: rest => if strLe x y then x :: y :: rest else y :: insertStr x rest

/-- Sorting of a string list (for `sort.Strings`). -/
def sortStrings (l : List String) : List String :=
  l.foldr insertStr []

/-- Translation of `visibleFieldSet` (engine source file): the sorted,
comma-joined visible field names used as the convergence key. -/
def visibleFieldSet (s : Schema) : String :=
  String.intercalate "," (sortStrings (visibleNames s))

/-- Value-copy loop of `Verify`: for every visible editable name, copy the
submitted value into the current document when both sides have the
definition (nil entries are skipped by the Go nil checks). -/
def copyEditable (newS : Schema) (current : Schema) (ids : List String) : Schema :=
  ids.foldl
    (fun acc id =>
      match lookup newS.definitions id, lookup acc.definitions id with
      | some (some nd), some (some cd) =>
        { acc with definitions := setKey acc.definitions id (some { cd with value := nd.value }) }
      | _, _ => acc)
    current

/-- Attestation-copy loop of `Verify`: `signed` and `evidence` flow from the
submitted document into every attestation present (non-nil) on both sides. -/
def copyAttestations (newS : Schema) (current : Schema) : Schema :=
  current.attestations.foldl
    (fun acc entry =>
      match entry.2 with
      | none => acc
      | some ca =>
        match lookup newS.attestations entry.1 with
        | some (some na) =>
          let upd := some { ca with signed := na.signed, evidence := na.evidence }
          { acc with attestations := setKey acc.attestations entry.1 upd }
        | _ => acc)
    current

/-- Unknown-field loop of `validateFinalState` (engine source file). -/
def unknownFieldIssues (newS resultS : Schema) : List VerifyIssue :=
  newS.definitions.foldl
    (fun acc entry =>
      match lookup resultS.definitions entry.1 with
      | some _ => acc
      | none =>
        let msg := "field " ++ entry.1 ++ " does not exist in the schema"
        acc ++ [{ code := verifyUnknownField, fieldId := entry.1, message := msg }])
    []

/-- Readonly-comparison loop of `validateFinalState` (engine source file):
for every readonly field of the converged result, a computed_mismatch issue
when the submitted document misses the field (expected only) or carries an
unequal value (expected and claimed).  Reading a nil submitted entry is the
Go panic. -/
def cmStep (newS : Schema) (acc : List VerifyIssue) (entry : String × Option Definition) :
    EM (List VerifyIssue) :=
  match entry.2 with
  | none => pure acc
  | some resultDef =>
    if ! resultDef.readonly then pure acc
    else
      match lookup newS.definitions entry.1 with
      | none =>
        let msg := "computed field " ++ entry.1 ++ " is missing from the submitted document"
        let issue : VerifyIssue :=
          { code := verifyComputedMismatch, fieldId := entry.1, message := msg,
            expected := resultDef.value }
        pure (acc ++ [issue])
      | some none => throw nilDeref
      | some (some newDef) =>
        if ! compareEqual newDef.value resultDef.value then
          let msg := "computed field " ++ entry.1 ++ " was modified"
          let issue : VerifyIssue :=
            { code := verifyComputedMismatch, fieldId := entry.1, message := msg,
              expected := resultDef.value, claimed := newDef.value }
          pure (acc ++ [issue])
        else pure acc

/-- Readonly-comparison loop of `validateFinalState`, folding `cmStep` over
the converged result's definitions. -/
def computedMismatchIssues (newS resultS : Schema) : EM (List VerifyIssue) :=
  resultS.definitions.foldlM (cmStep newS) []

/-- Attestation loop of `validateFinalState` (engine source file). Reading a
nil submitted attestation is the Go panic. -/
def attestationIssues (newS resultS : Schema) : EM (List VerifyIssue) :=
  resultS.attestations.foldlM
    (fun acc entry =>
      match entry.2 with
      | none => pure acc
      | some resultAtt =>
        if ! resultAtt.required then pure acc
        else
          match lookup newS.attestations entry.1 with
          | none => pure acc
          | some none => throw nilDeref
          | some (some newAtt) =>
            if ! newAtt.signed then
              let msg := "required attestation " ++ entry.1 ++ " has not been signed"
              pure (acc ++ [{ code := verifyAttestationUnsigned, fieldId := entry.1, message := msg }])
            else
              let evidenceMissing :=
                match newAtt.evidence with
                | none => true
                | some evd => evd.providerAuditId == ""
              let msgE := "attestation " ++ entry.1 ++ " is signed but missing proof of signing"
              let acc1 :=
                if evidenceMissing then
                  acc ++ [{ code := verifyAttestationNoEvidence, fieldId := entry.1, message := msgE }]
                else acc
              let timestampMissing :=
                match newAtt.evidence with
                | none => true
                | some evd => evd.timestamp == ""
              let msgT := "attestation " ++ entry.1 ++ " is signed but missing a timestamp"
              if timestampMissing then
                pure (acc1 ++ [{ code := verifyAttestationNoTimestamp, fieldId := entry.1, message := msgT }])
              else pure acc1)
    []

/-- Translation of `validateFinalState` (engine source file): collects all
issues — injected fields, readonly mismatches, attestation failures and a
status mismatch — and is valid exactly when none were found. -/
def validateFinalState (newS resultS : Schema) : EM VerifyResult := do
  let issues0 := unknownFieldIssues newS resultS
  let issues1 ← computedMismatchIssues newS resultS
  let issues2 ← attestationIssues newS resultS
  let issuesA := issues0 ++ issues1 ++ issues2
  let statusIssue : VerifyIssue :=
    { code := verifyStatusMismatch,
      message := "the document status does not match what was computed",
      expected := .str resultS.status, claimed := .str newS.status }
  let issues :=
    if newS.status != resultS.status then issuesA ++ [statusIssue]
    else issuesA
  pure { valid := issues.isEmpty, status := resultS.status, issues := issues,
         schemaOut := some resultS }

/-- The document fed to one replay iteration of `Verify`: editable values
and attestation states copied from the submitted document into the current
one. -/
def nextInput (newS current : Schema) : Schema :=
  copyAttestations newS (copyEditable newS current (getVisibleEditableFields current))

/-- Replay loop of `Verify` (engine source file): each remaining iteration
copies editable values and attestation states from the submitted document,
runs the engine, and compares the sorted visible-name join with the previous
one; equality means convergence and final-state validation.  `cap` is the
original iteration budget (for the failure message), `remaining` the
iterations left. -/
def verifyLoop (p : GoPrims) (newS : Schema) (effectiveDate : Int) (cap : Nat) :
    Nat → Schema → String → EM VerifyResult
  | 0, _, _ =>
    let msg := "document did not converge after " ++ toString cap ++ " iterations"
    pure { valid := false, issues := [{ code := verifyConvergenceFailed, message := msg }] }
  | remaining + 1, current, previousVisibleSet =>
    match Run p (nextInput newS current) effectiveDate with
    | .err m =>
      let iterStr := toString (cap - (remaining + 1))
      let msg := "VM run failed at iteration " ++ iterStr
      let errStr := "run failed (iteration " ++ iterStr ++ "): " ++ m
      pure { valid := false, issues := [{ code := verifyInternalError, message := msg }],
             error := errStr }
    | .ok resultSchema =>
      let currentVisibleSet := visibleFieldSet resultSchema
      if currentVisibleSet == previousVisibleSet then
        validateFinalState newS resultSchema
      else
        verifyLoop p newS effectiveDate cap remaining resultSchema currentVisibleSet

/-- Body of `Verify` between the recover wrapper and the loop: iteration
budget (positive explicit argument, else 100), effective date from the
submitted document's `valid_from` (falling back to the current instant),
then the replay loop starting from the base document with an empty previous
visible set. -/
def verifyMain (p : GoPrims) (newS baseS : Schema) (maxIter : Option Int) : EM VerifyResult :=
  let maxIterations : Nat :=
    match maxIter with
    | some m => if m > 0 then m.toNat else 100
    | none => 100
  let effectiveDate :=
    if newS.validFrom != "" then
      match p.parseDate newS.validFrom with
      | some t => t
      | none => p.now
    else p.now
  verifyLoop p newS effectiveDate maxIterations maxIterations baseS ""

/-- Translation of the public `Verify` (engine source file): the deferred
recover turns any internal panic into a result with a single internal_error
issue instead of a crash. -/
def Verify (p : GoPrims) (newS baseS : Schema) (maxIter : Option Int) : VerifyResult :=
  match verifyMain p newS baseS maxIter with
  | .ok vr => vr
  | .error m =>
    { valid := false,
      issues := [{ code := verifyInternalError, message := "internal panic: " ++ m }],
      error := "internal panic: " ++ m }

deriving instance DecidableEq for Value

deriving instance DecidableEq for Definition

deriving instance DecidableEq for Action

deriving instance DecidableEq for Rule

deriving instance DecidableEq for TemporalBranch

deriving instance DecidableEq for DerivedDef

deriving instance DecidableEq for StateModel

deriving instance DecidableEq for Evidence

deriving instance DecidableEq for Attestation

deriving instance DecidableEq for VError

deriving instance DecidableEq for Schema

deriving instance DecidableEq for Engine

deriving instance DecidableEq for RunResult

deriving instance DecidableEq for Except

deriving instance DecidableEq for VerifyIssue

deriving instance DecidableEq for VerifyResult

/-- Shorthand for a `var` expression in concrete documents. -/
def mkVar (path : String) : Value :=
  .obj (.cons "var" (.str path) .nil)

/-- Shorthand for an operator application in concrete documents. -/
def mkOp (op : String) (args : List Value) : Value :=
  .obj (.cons op (.arr (valsOf args)) .nil)

/-- Concrete primitives for witnesses: a small date table (seconds since
epoch for a few ISO dates), no regex matches, instant 0 as "now". -/
def stubPrims : GoPrims where
  parseDate := fun s =>
    if s == "2024-01-01" then some 1704067200
    else if s == "2024-12-31" then some 1735603200
    else if s == "2025-01-01" then some 1735689600
    else if s == "2025-06-01" then some 1748736000
    else none
  regexMatch := fun _ _ => none
  now := 0

/-- Projection of a successful run result (the error case never occurs where
this is used). -/
def extractOk : RunResult → Schema
  | .ok r => r
  | .err _ => {}

/-- The value of a definition in a successful run result (null when absent
or failed), used to state concrete facts about outputs. -/
def outValue (rr : RunResult) (id : String) : Value :=
  match rr with
  | .ok r =>
    match lookup r.definitions id with
    | some (some d) => d.value
    | _ => .null
  | .err _ => .null

/-- The status a result would get, as the specification words it: the first
matching rule among — any type_mismatch; any missing_required or
attestation_incomplete; any constraint_violation; otherwise READY. -/
def statusSpec (errs : List VError) : String :=
  if ∃ er ∈ errs, er.kind = errTypeMismatch then statusInvalid
  else if ∃ er ∈ errs, er.kind = errMissingRequired ∨ er.kind = errAttestationIncomplete then
    statusIncomplete
  else if ∃ er ∈ errs, er.kind = errConstraintViolation then statusInvalid
  else statusReady

/-- Engine status determination coincides with the specification wording. -/
theorem determineStatus_eq_statusSpec (errs : List VError) :
    determineStatus errs = statusSpec errs := by
  unfold determineStatus statusSpec
  simp only [List.any_eq_true, beq_iff_eq, Bool.or_eq_true]

/-- A filter that keeps every element satisfying the scanned predicate does
not change `List.any`. -/
theorem any_filter_of_imp (l : List VError) (pr keep : VError → Bool)
    (h : ∀ er, pr er = true → keep er = true) :
    (l.filter keep).any pr = l.any pr := by
  induction l with
  | nil => rfl
  | cons er rest ih =>
    rw [List.filter_cons]
    by_cases hk : keep er = true
    · rw [if_pos hk, List.any_cons, List.any_cons, ih]
    · have hp : pr er = false := by
        cases hpe : pr er
        · rfl
        · exact absurd (h er hpe) hk
      rw [if_neg hk, List.any_cons, hp, ih]
      simp

/-- Removing all runtime_warning and cycle_detected errors from a list does
not change the determined status. -/
theorem determineStatus_filter_nonblocking (errs : List VError) :
    determineStatus (errs.filter
      (fun er => !(er.kind == errRuntimeWarning || er.kind == errCycleDetected))) =
    determineStatus errs := by
  unfold determineStatus
  rw [any_filter_of_imp errs _ _ ?h1, any_filter_of_imp errs _ _ ?h2, any_filter_of_imp errs _ _ ?h3]
  case h1 =>
    intro er hp
    rw [show er.kind = errTypeMismatch from by simpa [beq_iff_eq] using hp]
    decide
  case h2 =>
    intro er hp
    have : er.kind = errMissingRequired ∨ er.kind = errAttestationIncomplete := by
      simpa [beq_iff_eq] using hp
    rcases this with hk | hk <;> rw [hk] <;> decide
  case h3 =>
    intro er hp
    rw [show er.kind = errConstraintViolation from by simpa [beq_iff_eq] using hp]
    decide

/-- Reduction of a successful bind in the panic monad. -/
theorem em_bind_ok {α β : Type} (a : α) (f : α → EM β) :
    (Except.ok a >>= f : EM β) = f a := rfl

/-- Reduction of a failed bind in the panic monad. -/
theorem em_bind_error {α β : Type} (m : String) (f : α → EM β) :
    (Except.error m >>= f : EM β) = Except.error m := rfl

/-- C1: the status returned by evaluate is determined from the accumulated
error kinds by first-matching-rule precedence — any type_mismatch gives
INVALID; otherwise any missing_required or attestation_incomplete gives
INCOMPLETE; otherwise any constraint_violation gives INVALID; otherwise
READY — and removing every runtime_warning and cycle_detected error from
the returned list leaves the determined status unchanged. -/
theorem c1_evaluate_status (p : GoPrims) (s : Schema) (d : Int) (r : Schema)
    (h : Run p s d = .ok r) :
    r.status = statusSpec r.errors ∧
    determineStatus r.errors = statusSpec r.errors ∧
    determineStatus (r.errors.filter
      (fun er => !(er.kind == errRuntimeWarning || er.kind == errCycleDetected))) =
      determineStatus r.errors := by
  have hm : runMain p s d = Except.ok r := by
    unfold Run at h
    cases hm : runMain p s d with
    | ok r2 =>
      rw [hm] at h
      cases h
      rfl
    | error m =>
      rw [hm] at h
      cases h
  unfold runMain at hm
  cases he : runEngine p (initSchema s) (schemaFuel (initSchema s)) d with
  | error m =>
    rw [he] at hm
    cases hm
  | ok e6 =>
    rw [he] at hm
    simp only [em_bind_ok] at hm
    cases hm
    simp only [attachResult]
    exact ⟨determineStatus_eq_statusSpec e6.errors, determineStatus_eq_statusSpec e6.errors,
      determineStatus_filter_nonblocking e6.errors⟩

/-- Concrete document for the C1 witness: a required empty string produces a
missing_required error, and a rule reading an undefined variable produces a
runtime_warning, so the status is INCOMPLETE. -/
def c1Doc : Schema :=
  { definitions := [("name", some { type := "string", value := .str "", required := true })],
    logicTree := [some { id := "r1", when := mkVar "nope", thenAction := none }] }

/-- Witness for C1 at a concrete document. -/
theorem c1_evaluate_status_witness :
    (extractOk (Run stubPrims c1Doc 0)).status =
      statusSpec (extractOk (Run stubPrims c1Doc 0)).errors ∧
    determineStatus (extractOk (Run stubPrims c1Doc 0)).errors =
      statusSpec (extractOk (Run stubPrims c1Doc 0)).errors ∧
    determineStatus ((extractOk (Run stubPrims c1Doc 0)).errors.filter
      (fun er => !(er.kind == errRuntimeWarning || er.kind == errCycleDetected))) =
      determineStatus (extractOk (Run stubPrims c1Doc 0)).errors :=
  c1_evaluate_status stubPrims c1Doc 0 (extractOk (Run stubPrims c1Doc 0)) (by decide)

/-- The previous-branch end instant used by the overlap check: parsed end,
with a missing or unparseable end counting as the +infinity sentinel. -/
def tmPrevEnd (p : GoPrims) (pbr : TemporalBranch) : Int :=
  match pbr.validRangeEnd with
  | some es =>
    match p.parseDate es with
    | some t => t
    | none => 2 ^ 62 - 1
  | none => 2 ^ 62 - 1

/-- The current-branch start instant used by the overlap check: parsed
start, with a missing or unparseable start counting as the -infinity
sentinel. -/
def tmCurrStart (p : GoPrims) (br : TemporalBranch) : Int :=
  match br.validRangeStart with
  | some ss =>
    match p.parseDate ss with
    | some t => t
    | none => -(2 ^ 62 - 1)
  | none => -(2 ^ 62 - 1)

/-- Zero-length-range error of branch `i`. -/
def tmZeroErr (i : Nat) (s : String) : VError :=
  { message := "Temporal branch " ++ toString i ++ " has same start and end date " ++ s ++ " (invalid range)" }

/-- Overlap error of branch `i` against branch `i - 1`. -/
def tmOverlapErr (i : Nat) : VError :=
  { message := "Temporal branch " ++ toString i ++ " overlaps with branch " ++ toString (i - 1) ++ " (ranges must not overlap)" }

/-- Declarative description of the errors one branch contributes: a
zero-length error when both range strings are present and equal, and an
overlap error when the branch is not the first, the previous entry is
non-nil, and the start instant is not after the previous end instant. -/
def branchErrorsSpec (p : GoPrims) (i : Nat) (prev : Option (Option TemporalBranch))
    (br : TemporalBranch) : List VError :=
  (match br.validRangeStart, br.validRangeEnd with
   | some s, some t => if s == t then [tmZeroErr i s] else []
   | _, _ => []) ++
  (match i, prev with
   | 0, _ => []
   | _ + 1, some (some pbr) =>
     if tmCurrStart p br ≤ tmPrevEnd p pbr then [tmOverlapErr i] else []
   | _ + 1, _ => [])

set_option maxHeartbeats 1000000 in
/-- One branch check appends exactly its declarative errors. -/
theorem validateTemporalBranch_chars (p : GoPrims) (e : Engine) (i : Nat)
    (prev : Option (Option TemporalBranch)) (br : TemporalBranch) :
    validateTemporalBranch p e i prev br =
      { e with errors := e.errors ++ branchErrorsSpec p i prev br } := by
  unfold validateTemporalBranch branchErrorsSpec
  rcases hs : br.validRangeStart with _ | s <;> rcases ht : br.validRangeEnd with _ | t <;>
    cases i <;> rcases prev with _ | pb
  all_goals try rcases pb with _ | pbr
  all_goals dsimp only
  all_goals (repeat' split) <;>
    (try simp_all [addError, tmZeroErr, tmOverlapErr, tmPrevEnd, tmCurrStart, List.append_assoc]) <;>
    (try linarith)

/-- Declarative error list of the whole temporal loop. -/
def tmErrorsSpecGo (p : GoPrims) : Nat → Option (Option TemporalBranch) →
    List (Option TemporalBranch) → List VError
  | _, _, [] => []
  | i, prev, b :: rest =>
    (match b with
     | none => []
     | some br => branchErrorsSpec p i prev br) ++ tmErrorsSpecGo p (i + 1) (some b) rest

/-- The temporal loop appends exactly the declarative error list. -/
theorem validateTemporalMapGo_chars (p : GoPrims) :
    ∀ (l : List (Option TemporalBranch)) (e : Engine) (i : Nat)
      (prev : Option (Option TemporalBranch)),
      validateTemporalMapGo p e i prev l =
        { e with errors := e.errors ++ tmErrorsSpecGo p i prev l } := by
  intro l
  induction l with
  | nil => intro e i prev; simp [validateTemporalMapGo, tmErrorsSpecGo]
  | cons b rest ih =>
    intro e i prev
    cases b with
    | none =>
      simp only [validateTemporalMapGo, tmErrorsSpecGo]
      rw [ih]
      simp
    | some br =>
      simp only [validateTemporalMapGo, tmErrorsSpecGo]
      rw [validateTemporalBranch_chars, ih]
      simp [List.append_assoc]

/-- Declarative error list of `validateTemporalMap` (empty map: no check). -/
def tmvErrors (p : GoPrims) (l : List (Option TemporalBranch)) : List VError :=
  if l.isEmpty then [] else tmErrorsSpecGo p 0 none l

/-- Full characterization of `validateTemporalMap`. -/
theorem validateTemporalMap_chars (p : GoPrims) (e : Engine) :
    validateTemporalMap p e = { e with errors := e.errors ++ tmvErrors p e.schema.temporalMap } := by
  unfold validateTemporalMap tmvErrors
  split
  · simp
  · exact validateTemporalMapGo_chars p e.schema.temporalMap e 0 none

/-- The entry for list position `k` relative to the loop's initial `prev`. -/
def prevAt (prev : Option (Option TemporalBranch)) (l : List (Option TemporalBranch))
    (k : Nat) : Option (Option TemporalBranch) :=
  match k with
  | 0 => prev
  | k + 1 => l.get? k

/-- Membership of a branch's declarative errors in the loop's error list. -/
theorem tmErrorsSpecGo_member (p : GoPrims) :
    ∀ (l : List (Option TemporalBranch)) (i0 : Nat) (prev : Option (Option TemporalBranch))
      (k : Nat) (br : TemporalBranch) (er : VError),
      l.get? k = some (some br) →
      er ∈ branchErrorsSpec p (i0 + k) (prevAt prev l k) br →
      er ∈ tmErrorsSpecGo p i0 prev l := by
  intro l
  induction l with
  | nil => intro i0 prev k br er hk; simp at hk
  | cons b rest ih =>
    intro i0 prev k br er hk hmem
    unfold tmErrorsSpecGo
    cases k with
    | zero =>
      simp only [List.get?] at hk
      cases hk
      simp only [prevAt] at hmem
      exact List.mem_append_left _ hmem
    | succ k2 =>
      simp only [List.get?] at hk
      apply List.mem_append_right
      apply ih (i0 + 1) (some b) k2 br er hk
      have harith : i0 + 1 + k2 = i0 + (k2 + 1) := by omega
      rw [harith]
      cases k2 with
      | zero => simpa [prevAt] using hmem
      | succ k3 => simpa [prevAt] using hmem

/-- Concrete document refuting C9 as stated: one temporal branch with a
non-degenerate range and an empty logic_version. -/
def c9Doc : Schema :=
  { definitions := [],
    temporalMap := [some { validRangeStart := some "2024-01-01",
                           validRangeEnd := some "2024-12-31",
                           logicVersion := "", status := "ACTIVE" }] }

/-- C9 counterexample: evaluating a document whose non-empty temporal map
consists of one branch with an empty logic_version records no validation
error at all, contradicting the claim that every such branch is flagged. -/
theorem c9_counterexample :
    c9Doc.temporalMap.get? 0 =
      some (some { validRangeStart := some "2024-01-01",
                   validRangeEnd := some "2024-12-31",
                   logicVersion := "", status := "ACTIVE" }) ∧
    Run stubPrims c9Doc 1704067200 = .ok (extractOk (Run stubPrims c9Doc 1704067200)) ∧
    (extractOk (Run stubPrims c9Doc 1704067200)).errors = [] := by
  exact ⟨by decide, by decide, by decide⟩

/-- C9 (amended): on a non-empty temporal map, evaluate records a validation
error for every branch whose start string equals its end string and for
every branch whose start instant is not after the previous branch's end
instant (missing or unparseable bounds falling to the infinite sentinels);
branches with an empty logic_version are not flagged; the errors are only
appended — the rest of the engine state is untouched, so evaluation
continues. -/
theorem c9_temporal_errors (p : GoPrims) (e : Engine) :
    (validateTemporalMap p e).schema = e.schema ∧
    (validateTemporalMap p e).errors = e.errors ++ tmvErrors p e.schema.temporalMap ∧
    (∀ k br s, e.schema.temporalMap.get? k = some (some br) →
      br.validRangeStart = some s → br.validRangeEnd = some s →
      tmZeroErr k s ∈ (validateTemporalMap p e).errors) ∧
    (∀ k pb br, e.schema.temporalMap.get? k = some (some pb) →
      e.schema.temporalMap.get? (k + 1) = some (some br) →
      tmCurrStart p br ≤ tmPrevEnd p pb →
      tmOverlapErr (k + 1) ∈ (validateTemporalMap p e).errors) := by
  have hch := validateTemporalMap_chars p e
  refine ⟨by rw [hch], by rw [hch], ?_, ?_⟩
  · intro k br s hk hstart hend2
    have hne : ¬ (e.schema.temporalMap.isEmpty = true) := by
      cases hl : e.schema.temporalMap with
      | nil => rw [hl] at hk; simp at hk
      | cons a rest => simp [hl, List.isEmpty]
    rw [hch]
    apply List.mem_append_right
    unfold tmvErrors
    rw [if_neg hne]
    apply tmErrorsSpecGo_member p _ 0 none k br _ hk
    unfold branchErrorsSpec
    rw [hstart, hend2]
    simp
  · intro k pb br hk hk1 hle
    have hne : ¬ (e.schema.temporalMap.isEmpty = true) := by
      cases hl : e.schema.temporalMap with
      | nil => rw [hl] at hk; simp at hk
      | cons a rest => simp [hl, List.isEmpty]
    rw [hch]
    apply List.mem_append_right
    unfold tmvErrors
    rw [if_neg hne]
    apply tmErrorsSpecGo_member p _ 0 none (k + 1) br _ hk1
    apply List.mem_append_right
    have hprev : prevAt none e.schema.temporalMap (k + 1) = some (some pb) := by
      simpa [prevAt] using hk
    rw [hprev]
    simp only [Nat.zero_add]
    rw [if_pos hle]
    simp

/-- Concrete temporal map for the C9 witness: the second branch has a
zero-length range and overlaps the first. -/
def c9wEngine : Engine :=
  NewEngine
    { definitions := [],
      temporalMap :=
        [some { validRangeStart := some "2024-01-01", validRangeEnd := some "2024-12-31",
                logicVersion := "v1", status := "ACTIVE" },
         some { validRangeStart := some "2024-12-31", validRangeEnd := some "2024-12-31",
                logicVersion := "v2", status := "ACTIVE" }] }

/-- Witness for C9 (amended) at a concrete temporal map. -/
theorem c9_temporal_errors_witness :
    tmZeroErr 1 "2024-12-31" ∈ (validateTemporalMap stubPrims c9wEngine).errors ∧
    tmOverlapErr 1 ∈ (validateTemporalMap stubPrims c9wEngine).errors ∧
    (validateTemporalMap stubPrims c9wEngine).schema = c9wEngine.schema := by
  have T := c9_temporal_errors stubPrims c9wEngine
  refine ⟨?_, ?_, T.1⟩
  · exact T.2.2.1 1
      { validRangeStart := some "2024-12-31", validRangeEnd := some "2024-12-31",
        logicVersion := "v2", status := "ACTIVE" }
      "2024-12-31" (by decide) (by decide) (by decide)
  · exact T.2.2.2 0
      { validRangeStart := some "2024-01-01", validRangeEnd := some "2024-12-31",
        logicVersion := "v1", status := "ACTIVE" }
      { validRangeStart := some "2024-12-31", validRangeEnd := some "2024-12-31",
        logicVersion := "v2", status := "ACTIVE" }
      (by decide) (by decide) (by decide)

/-- A rule entry that the rule pass actually processes: non-nil and not
disabled. -/
def activeRule : Option Rule → Bool
  | none => false
  | some rule => ! rule.disabled

/-- The rule pass is blind to nil and disabled entries: filtering them out
first changes nothing. -/
theorem evalRules_filter_active (p : GoPrims) (fuel : Nat) :
    ∀ (rules : List (Option Rule)) (e : Engine),
      evalRules p fuel e rules = evalRules p fuel e (rules.filter activeRule) := by
  intro rules
  induction rules with
  | nil => intro e; rfl
  | cons r rest ih =>
    intro e
    cases r with
    | none =>
      have hf : List.filter activeRule (none :: rest) = List.filter activeRule rest := by
        simp [activeRule]
      rw [hf]
      rw [show evalRules p fuel e (none :: rest) = evalRules p fuel e rest from rfl]
      exact ih e
    | some rule =>
      by_cases hd : rule.disabled
      · have hf : List.filter activeRule (some rule :: rest) = List.filter activeRule rest := by
          simp [activeRule, hd]
        rw [hf]
        have hskip : evalRules p fuel e (some rule :: rest) = evalRules p fuel e rest := by
          simp [evalRules, hd]
        rw [hskip]
        exact ih e
      · have hf : List.filter activeRule (some rule :: rest) =
            some rule :: List.filter activeRule rest := by
          simp [activeRule, hd]
        rw [hf]
        show evalRules p fuel e (some rule :: rest) =
          evalRules p fuel e (some rule :: List.filter activeRule rest)
        simp only [evalRules]
        rw [if_neg (by simp [hd]), if_neg (by simp [hd])]
        cases hres : resolveF p fuel e rule.when with
        | error m => rfl
        | ok pr =>
          obtain ⟨e1, condition⟩ := pr
          simp only [em_bind_ok]
          by_cases htr : isTruthy condition = true
          · rw [if_pos htr, if_pos htr]
            cases happ : applyAction p fuel e1 rule.thenAction rule.id rule.lawRef with
            | error m => rfl
            | ok e2 =>
              simp only [em_bind_ok]
              exact ih e2
          · rw [if_neg htr, if_neg htr]
            exact ih e1

/-- C5: after temporal routing selects a branch with version V, every rule
whose logic_version is non-empty and differs from V is disabled, rules with
empty logic_version keep their previous disabled flag (they stay active),
and the rule pass behaves exactly as if nil and disabled rules were absent,
so a disabled rule's action (set, ui_modify, error_msg) can never apply. -/
theorem c5_temporal_inactivity :
    (∀ (e : Engine) (br : TemporalBranch) (i : Nat) (rule : Rule),
      e.schema.logicTree.get? i = some (some rule) →
      (prune e (some br)).schema.logicTree.get? i = some (some
        (if rule.logicVersion ≠ "" ∧ rule.logicVersion ≠ br.logicVersion
         then { rule with disabled := true } else rule))) ∧
    (∀ (p : GoPrims) (fuel : Nat) (e : Engine) (rules : List (Option Rule)),
      evalRules p fuel e rules = evalRules p fuel e (rules.filter activeRule)) := by
  constructor
  · intro e br i rule hi
    unfold prune
    simp only [List.get?_map, hi, Option.map_some]
    by_cases h1 : rule.logicVersion = ""
    · simp [h1]
    · by_cases h2 : rule.logicVersion = br.logicVersion
      · simp [h1, h2]
      · simp [h1, h2]
  · intro p fuel e rules
    exact evalRules_filter_active p fuel rules e

/-- Concrete engine for the C5 witness: rules for versions v1, v2 and an
unversioned one, with the v2 branch active (spec scenario 5). -/
def c5wEngine : Engine :=
  NewEngine
    { definitions := [],
      logicTree :=
        [some { id := "r1", logicVersion := "v1", when := .bool true,
                thenAction := some { set := some [("a", .num 1)] } },
         some { id := "r2", logicVersion := "v2", when := .bool true,
                thenAction := some { set := some [("b", .num 2)] } },
         some { id := "r3", when := .bool true,
                thenAction := some { set := some [("c", .num 3)] } }] }

/-- The v2 branch used by the C5 witness. -/
def c5wBranch : TemporalBranch :=
  { validRangeStart := some "2025-01-01", validRangeEnd := none,
    logicVersion := "v2", status := "ACTIVE" }

/-- Witness for C5 at a concrete logic tree and branch. -/
theorem c5_temporal_inactivity_witness :
    (prune c5wEngine (some c5wBranch)).schema.logicTree.get? 0 = some (some
      (if ("v1" : String) ≠ "" ∧ ("v1" : String) ≠ "v2"
       then { id := "r1", logicVersion := "v1", when := .bool true,
              thenAction := some { set := some [("a", .num 1)] }, disabled := true }
       else { id := "r1", logicVersion := "v1", when := .bool true,
              thenAction := some { set := some [("a", .num 1)] } })) ∧
    evalRules stubPrims 8 c5wEngine c5wEngine.schema.logicTree =
      evalRules stubPrims 8 c5wEngine (c5wEngine.schema.logicTree.filter activeRule) := by
  constructor
  · exact c5_temporal_inactivity.1 c5wEngine c5wBranch 0
      { id := "r1", logicVersion := "v1", when := .bool true,
        thenAction := some { set := some [("a", .num 1)] } } (by decide)
  · exact c5_temporal_inactivity.2 stubPrims 8 c5wEngine c5wEngine.schema.logicTree

/-- Empty engine used by the collection-context conjuncts of C10. -/
def c10Engine : Engine :=
  NewEngine { definitions := [] }

/-- C10: when a var root is neither a derived field nor a definition, the
resolver yields null and appends a runtime_warning exactly when the current
collection element is nil; consequently, inside a collection operator the
warning is suppressed for a non-null element, but resolving an undefined
variable for a null array element does emit it. -/
theorem c10_undefined_var_warning :
    (∀ (rsv : Resolver) (e : Engine) (path root : String) (rest : List String),
      path ≠ "" →
      splitDot path = root :: rest →
      derivedEntryOf e root = none →
      lookup e.schema.definitions root = none →
      getVar rsv e path =
        pure ((if e.currentElement.isNull then
                 addError e "" "" errRuntimeWarning
                   ("Undefined variable " ++ root ++ " in logic expression") ""
               else e), Value.null)) ∧
    resolveF stubPrims 9 c10Engine
        (mkOp "some" [.arr (valsOf [.num 1]), mkVar "undef"]) =
      Except.ok (c10Engine, .bool false) ∧
    resolveF stubPrims 9 c10Engine
        (mkOp "some" [.arr (valsOf [.null]), mkVar "undef"]) =
      Except.ok ({ c10Engine with errors :=
        [{ fieldId := "", ruleId := "", kind := errRuntimeWarning,
           message := "Undefined variable undef in logic expression", lawRef := "" }] },
        .bool false) := by
  refine ⟨?_, by decide, by decide⟩
  intro rsv e path root rest hne hsplit hder hdef
  unfold getVar
  rw [if_neg (by simp [hne])]
  rw [hsplit]
  dsimp only
  rw [hder, hdef]
  by_cases hc : e.currentElement.isNull = true
  · rw [if_pos hc, if_pos hc]
  · rw [if_neg hc, if_neg hc]

/-- Engine for the C10 witness: one definition, nil current element. -/
def c10wEngine : Engine :=
  NewEngine { definitions := [("known", some { type := "number", value := .num 1 })] }

/-- Witness for C10: resolving the undefined root "nope" outside any
collection iteration yields null plus the runtime_warning. -/
theorem c10_undefined_var_warning_witness :
    getVar (resolveF stubPrims 4) c10wEngine "nope" =
      pure ((if c10wEngine.currentElement.isNull then
               addError c10wEngine "" "" errRuntimeWarning
                 ("Undefined variable " ++ "nope" ++ " in logic expression") ""
             else c10wEngine), Value.null) :=
  c10_undefined_var_warning.1 (resolveF stubPrims 4) c10wEngine "nope" "nope" []
    (by decide) (by decide) (by decide) (by decide)

/-- The evaluation pipeline as §4.4 of the specification words it:
materialize, temporal routing, derived pass 1, rule pass, derived pass 2,
validation, attestations, then the first-matching-rule status attached with
the errors.  The two derived passes bracket the rule pass. -/
def runSpec (p : GoPrims) (s : Schema) (date : Int) : EM Schema := do
  let w := initSchema s
  let fuel := schemaFuel w
  let e0 := NewEngine w
  let e1 :=
    if w.temporalMap.length > 0 then
      let ev := validateTemporalMap p e0
      match selectBranch p date ev.schema.temporalMap with
      | some br => prune ev (some br)
      | none => ev
    else e0
  let e2 ← computeDerived p fuel e1
  let e3 ← evaluateLogicTree p fuel e2
  let e4 ← computeDerived p fuel e3
  let e5 := validateDefinitions p e4
  let e6 ← checkAttestations p fuel e5
  pure { e6.schema with errors := e6.errors, status := statusSpec e6.errors }

/-- Concrete document for C2: the rule fires only because its condition sees
the pass-1 derived value (t = 200), and the returned derived value reflects
the input the rule changed (g := 5, so t = 10 after pass 2). -/
def c2Doc : Schema :=
  { definitions := [("g", some { type := "number", value := .num 100 })],
    stateModel := some { derived := [("t", some { eval := some (mkOp "*" [mkVar "g", .num 2]) })] },
    logicTree := [some { id := "r1", when := mkOp ">" [mkVar "t", .num 150],
                         thenAction := some { set := some [("g", .num 5), ("flag", .bool true)] } }] }

/-- C2: the engine body equals the specification pipeline — derived pass,
rule pass, derived pass, in that bracketing — for every document and
instant; and on a concrete document the rule observes the pass-1 derived
value while the returned derived value reflects the rule's change to its
input. -/
theorem c2_derived_rule_derived (p : GoPrims) (s : Schema) (d : Int) :
    runMain p s d = runSpec p s d ∧
    outValue (Run stubPrims c2Doc 0) "flag" = .bool true ∧
    outValue (Run stubPrims c2Doc 0) "t" = .num 10 ∧
    outValue (Run stubPrims c2Doc 0) "g" = .num 5 := by
  refine ⟨?_, by decide, by decide, by decide⟩
  unfold runMain runSpec runEngine
  dsimp only
  cases h2 : computeDerived p (schemaFuel (initSchema s))
      (if (initSchema s).temporalMap.length > 0 then
        match selectBranch p d (validateTemporalMap p (NewEngine (initSchema s))).schema.temporalMap with
        | some br => prune (validateTemporalMap p (NewEngine (initSchema s))) (some br)
        | none => validateTemporalMap p (NewEngine (initSchema s))
      else NewEngine (initSchema s)) with
  | error m => rfl
  | ok e2 =>
    simp only [em_bind_ok]
    cases h3 : evaluateLogicTree p (schemaFuel (initSchema s)) e2 with
    | error m => rfl
    | ok e3 =>
      simp only [em_bind_ok]
      cases h4 : computeDerived p (schemaFuel (initSchema s)) e3 with
      | error m => rfl
      | ok e4 =>
        simp only [em_bind_ok]
        cases h6 : checkAttestations p (schemaFuel (initSchema s))
            (validateDefinitions p e4) with
        | error m => rfl
        | ok e6 =>
          simp only [em_bind_ok]
          unfold attachResult
          rw [determineStatus_eq_statusSpec]

/-- Inversion of a successful bind in the panic monad. -/
theorem em_ok_of_bind {α β : Type} (m : EM α) (f : α → EM β) (res : β)
    (h : (m >>= f) = Except.ok res) : ∃ a, m = Except.ok a ∧ f a = Except.ok res := by
  cases m with
  | error s => exact absurd h (by simp [em_bind_error])
  | ok a => exact ⟨a, rfl, h⟩

/-- A write returns the written entry on lookup. -/
theorem lookup_setKey_self {α : Type} (m : List (String × α)) (k : String) (v : α) :
    lookup (setKey m k v) k = some v := by
  induction m with
  | nil => simp [setKey, lookup, List.find?]
  | cons q rest ih =>
    simp only [setKey]
    by_cases hk : (q.1 == k) = true
    · rw [if_pos hk]
      simp [lookup, List.find?]
    · have hk2 : (q.1 == k) = false := by simpa using hk
      rw [if_neg (by simp [hk2])]
      simp only [lookup, List.find?] at ih ⊢
      rw [hk2]
      exact ih

/-- A write leaves every other key's lookup unchanged. -/
theorem lookup_setKey_other {α : Type} (m : List (String × α)) (k k2 : String) (v : α)
    (hne : k2 ≠ k) : lookup (setKey m k v) k2 = lookup m k2 := by
  have hkk : (k == k2) = false := beq_eq_false_iff_ne.mpr (fun hcon => hne hcon.symm)
  induction m with
  | nil =>
    simp only [setKey, lookup, List.find?]
    rw [hkk]
  | cons q rest ih =>
    simp only [setKey]
    by_cases hk : (q.1 == k) = true
    · rw [if_pos hk]
      have hq2 : (q.1 == k2) = false := by
        have : q.1 = k := by simpa using hk
        rw [this]; exact hkk
      simp only [lookup, List.find?]
      rw [hkk, hq2]
    · rw [if_neg hk]
      simp only [lookup, List.find?] at ih ⊢
      cases hq : (q.1 == k2) with
      | true => rfl
      | false => exact ih

/-- A resolver that never changes the working schema. -/
def SchemaPreserving (rsv : Resolver) : Prop :=
  ∀ e v res, rsv e v = Except.ok res → res.1.schema = e.schema

/-- The variable lookup never changes the schema when its recursive resolver
does not. -/
theorem getVar_schema (rsv : Resolver) (hr : SchemaPreserving rsv) (e : Engine) (path : String)
    (res : Engine × Value) (h : getVar rsv e path = Except.ok res) :
    res.1.schema = e.schema := by
  unfold getVar at h
  by_cases hp : (path == "") = true
  · rw [if_pos hp] at h; cases h; rfl
  · rw [if_neg hp] at h
    cases hsp : splitDot path with
    | nil => rw [hsp] at h; cases h; rfl
    | cons root restParts =>
      rw [hsp] at h
      dsimp only at h
      cases hde : derivedEntryOf e root with
      | some dd =>
        rw [hde] at h
        dsimp only at h
        by_cases hip : (e.derivedInProgress.contains root) = true
        · rw [if_pos hip] at h; cases h; rfl
        · rw [if_neg hip] at h
          cases dd with
          | none => cases h
          | some dfd =>
            dsimp only at h
            obtain ⟨pr, hrsv, h2⟩ := em_ok_of_bind _ _ _ h
            obtain ⟨e2, result⟩ := pr
            have hs : e2.schema = e.schema := by simpa using hr _ _ _ hrsv
            dsimp only at h2
            by_cases hre : (restParts.isEmpty = true)
            · rw [if_pos hre] at h2; cases h2; exact hs
            · rw [if_neg hre] at h2; cases h2; exact hs
      | none =>
        rw [hde] at h
        dsimp only at h
        cases hdef2 : lookup e.schema.definitions root with
        | some od =>
          rw [hdef2] at h
          cases od with
          | none => cases h
          | some dfn =>
            dsimp only at h
            by_cases hre : (restParts.isEmpty = true)
            · rw [if_pos hre] at h; cases h; rfl
            · rw [if_neg hre] at h; cases h; rfl
        | none =>
          rw [hdef2] at h
          dsimp only at h
          by_cases hc : (e.currentElement.isNull = true)
          · rw [if_pos hc] at h; cases h; rfl
          · rw [if_neg hc] at h; cases h; rfl

/-- Two-argument resolution preserves the schema. -/
theorem resolveArgs2_schema (rsv : Resolver) (hr : SchemaPreserving rsv) (e : Engine)
    (args : Value) (res : Engine × Value × Value)
    (h : resolveArgs2 rsv e args = Except.ok res) : res.1.schema = e.schema := by
  unfold resolveArgs2 at h
  cases args with
  | arr va =>
    dsimp only at h
    cases hl : va.toList with
    | nil => rw [hl] at h; cases h; rfl
    | cons a rest2 =>
      rw [hl] at h
      cases rest2 with
      | nil =>
        dsimp only at h
        obtain ⟨pr, hrsv, h2⟩ := em_ok_of_bind _ _ _ h
        obtain ⟨e1, x⟩ := pr
        dsimp only at h2
        cases h2
        exact hr _ _ _ hrsv
      | cons b rest3 =>
        dsimp only at h
        obtain ⟨pr, hrsv, h2⟩ := em_ok_of_bind _ _ _ h
        obtain ⟨e1, x⟩ := pr
        dsimp only at h2
        obtain ⟨pr2, hrsv2, h3⟩ := em_ok_of_bind _ _ _ h2
        obtain ⟨e2, y⟩ := pr2
        dsimp only at h3
        cases h3
        have hs1 : e1.schema = e.schema := hr _ _ _ hrsv
        have hs2 : e2.schema = e1.schema := hr _ _ _ hrsv2
        simp [hs2, hs1]
  | null =>
    obtain ⟨pr, hrsv, h2⟩ := em_ok_of_bind _ _ _ h
    obtain ⟨e1, x⟩ := pr
    dsimp only at h2
    cases h2
    exact hr _ _ (e1, x) hrsv
  | bool b =>
    obtain ⟨pr, hrsv, h2⟩ := em_ok_of_bind _ _ _ h
    obtain ⟨e1, x⟩ := pr
    dsimp only at h2
    cases h2
    exact hr _ _ (e1, x) hrsv
  | num q =>
    obtain ⟨pr, hrsv, h2⟩ := em_ok_of_bind _ _ _ h
    obtain ⟨e1, x⟩ := pr
    dsimp only at h2
    cases h2
    exact hr _ _ (e1, x) hrsv
  | str s =>
    obtain ⟨pr, hrsv, h2⟩ := em_ok_of_bind _ _ _ h
    obtain ⟨e1, x⟩ := pr
    dsimp only at h2
    cases h2
    exact hr _ _ (e1, x) hrsv
  | obj fs =>
    obtain ⟨pr, hrsv, h2⟩ := em_ok_of_bind _ _ _ h
    obtain ⟨e1, x⟩ := pr
    dsimp only at h2
    cases h2
    exact hr _ _ (e1, x) hrsv

/-- One-argument resolution preserves the schema. -/
theorem resolveArgs1_schema (rsv : Resolver) (hr : SchemaPreserving rsv) (e : Engine)
    (args : Value) (res : Engine × Value)
    (h : resolveArgs1 rsv e args = Except.ok res) : res.1.schema = e.schema := by
  unfold resolveArgs1 at h
  cases args with
  | arr va =>
    dsimp only at h
    cases hl : va.toList with
    | nil => rw [hl] at h; cases h; rfl
    | cons a rest2 => rw [hl] at h; exact hr _ _ _ h
  | null => exact hr _ _ _ h
  | bool b => exact hr _ _ _ h
  | num q => exact hr _ _ _ h
  | str s => exact hr _ _ _ h
  | obj fs => exact hr _ _ _ h

/-- Context-bound predicate evaluation preserves the schema. -/
theorem evalWithContext_schema (rsv : Resolver) (hr : SchemaPreserving rsv) (e : Engine)
    (c cv : Value) (res : Engine × Bool)
    (h : evalWithContext rsv e c cv = Except.ok res) : res.1.schema = e.schema := by
  unfold evalWithContext at h
  obtain ⟨pr, hrsv, h2⟩ := em_ok_of_bind _ _ _ h
  obtain ⟨e2, r⟩ := pr
  dsimp only at h2
  cases h2
  simpa using hr _ _ _ hrsv

/-- The some-loop preserves the schema. -/
theorem someLoop_schema (rsv : Resolver) (hr : SchemaPreserving rsv) (c : Value) :
    ∀ (items : List Value) (e : Engine) (res : Engine × Value),
      someLoop rsv c e items = Except.ok res → res.1.schema = e.schema := by
  intro items
  induction items with
  | nil => intro e res h; cases h; rfl
  | cons it rest ih =>
    intro e res h
    unfold someLoop at h
    obtain ⟨pr, hew, h2⟩ := em_ok_of_bind _ _ _ h
    obtain ⟨e1, b⟩ := pr
    have hs1 : e1.schema = e.schema := evalWithContext_schema rsv hr e c it (e1, b) hew
    dsimp only at h2
    cases b with
    | true => rw [if_pos rfl] at h2; cases h2; exact hs1
    | false =>
      rw [if_neg (by simp)] at h2
      rw [ih e1 res h2, hs1]

/-- The all-loop preserves the schema. -/
theorem allLoop_schema (rsv : Resolver) (hr : SchemaPreserving rsv) (c : Value) :
    ∀ (items : List Value) (e : Engine) (res : Engine × Value),
      allLoop rsv c e items = Except.ok res → res.1.schema = e.schema := by
  intro items
  induction items with
  | nil => intro e res h; cases h; rfl
  | cons it rest ih =>
    intro e res h
    unfold allLoop at h
    obtain ⟨pr, hew, h2⟩ := em_ok_of_bind _ _ _ h
    obtain ⟨e1, b⟩ := pr
    have hs1 : e1.schema = e.schema := evalWithContext_schema rsv hr e c it (e1, b) hew
    dsimp only at h2
    cases b with
    | true => rw [if_pos rfl] at h2; rw [ih e1 res h2, hs1]
    | false => rw [if_neg (by simp)] at h2; cases h2; exact hs1

/-- The none-loop preserves the schema. -/
theorem noneLoop_schema (rsv : Resolver) (hr : SchemaPreserving rsv) (c : Value) :
    ∀ (items : List Value) (e : Engine) (res : Engine × Value),
      noneLoop rsv c e items = Except.ok res → res.1.schema = e.schema := by
  intro items
  induction items with
  | nil => intro e res h; cases h; rfl
  | cons it rest ih =>
    intro e res h
    unfold noneLoop at h
    obtain ⟨pr, hew, h2⟩ := em_ok_of_bind _ _ _ h
    obtain ⟨e1, b⟩ := pr
    have hs1 : e1.schema = e.schema := evalWithContext_schema rsv hr e c it (e1, b) hew
    dsimp only at h2
    cases b with
    | true => rw [if_pos rfl] at h2; cases h2; exact hs1
    | false => rw [if_neg (by simp)] at h2; rw [ih e1 res h2, hs1]

/-- The and-loop preserves the schema. -/
theorem andLoop_schema (rsv : Resolver) (hr : SchemaPreserving rsv) :
    ∀ (l : List Value) (e : Engine) (res : Engine × Value),
      andLoop rsv e l = Except.ok res → res.1.schema = e.schema := by
  intro l
  induction l with
  | nil => intro e res h; cases h; rfl
  | cons a rest ih =>
    intro e res h
    unfold andLoop at h
    obtain ⟨pr, hrsv, h2⟩ := em_ok_of_bind _ _ _ h
    obtain ⟨e1, v⟩ := pr
    have hs1 : e1.schema = e.schema := hr _ _ _ hrsv
    dsimp only at h2
    by_cases ht : isTruthy v = true
    · rw [if_pos ht] at h2; rw [ih e1 res h2, hs1]
    · rw [if_neg ht] at h2; cases h2; exact hs1

/-- The or-loop preserves the schema. -/
theorem orLoop_schema (rsv : Resolver) (hr : SchemaPreserving rsv) :
    ∀ (l : List Value) (e : Engine) (res : Engine × Value),
      orLoop rsv e l = Except.ok res → res.1.schema = e.schema := by
  intro l
  induction l with
  | nil => intro e res h; cases h; rfl
  | cons a rest ih =>
    intro e res h
    unfold orLoop at h
    obtain ⟨pr, hrsv, h2⟩ := em_ok_of_bind _ _ _ h
    obtain ⟨e1, v⟩ := pr
    have hs1 : e1.schema = e.schema := hr _ _ _ hrsv
    dsimp only at h2
    by_cases ht : isTruthy v = true
    · rw [if_pos ht] at h2; cases h2; exact hs1
    · rw [if_neg ht] at h2; rw [ih e1 res h2, hs1]

/-- The if-loop preserves the schema. -/
theorem ifLoop_schema (rsv : Resolver) (hr : SchemaPreserving rsv) :
    ∀ (l : List Value) (e : Engine) (res : Engine × Value),
      ifLoop rsv e l = Except.ok res → res.1.schema = e.schema
  | [], e, res, h => by cases h; rfl
  | [x], e, res, h => hr _ _ _ h
  | c :: t :: rest, e, res, h => by
    unfold ifLoop at h
    obtain ⟨pr, hrsv, h2⟩ := em_ok_of_bind _ _ _ h
    obtain ⟨e1, cv⟩ := pr
    have hs1 : e1.schema = e.schema := hr _ _ _ hrsv
    dsimp only at h2
    by_cases ht : isTruthy cv = true
    · rw [if_pos ht] at h2; rw [hr _ _ _ h2, hs1]
    · rw [if_neg ht] at h2
      rw [ifLoop_schema rsv hr rest e1 res h2, hs1]

/-- Element-wise resolution preserves the schema. -/
theorem resolveElems_schema (rsv : Resolver) (hr : SchemaPreserving rsv) :
    ∀ (l : List Value) (e : Engine) (res : Engine × List Value),
      resolveElems rsv e l = Except.ok res → res.1.schema = e.schema := by
  intro l
  induction l with
  | nil => intro e res h; cases h; rfl
  | cons v vs ih =>
    intro e res h
    unfold resolveElems at h
    obtain ⟨pr, hrsv, h2⟩ := em_ok_of_bind _ _ _ h
    obtain ⟨e1, r⟩ := pr
    dsimp only at h2
    obtain ⟨pr2, hrest, h3⟩ := em_ok_of_bind _ _ _ h2
    obtain ⟨e2, rs⟩ := pr2
    dsimp only at h3
    cases h3
    rw [ih e1 (e2, rs) hrest, hr _ _ _ hrsv]

/-- The collection operators preserve the schema. -/
theorem opSome_schema (rsv : Resolver) (hr : SchemaPreserving rsv) (e : Engine) (args : Value)
    (res : Engine × Value) (h : opSome rsv e args = Except.ok res) :
    res.1.schema = e.schema := by
  unfold opSome at h
  cases args with
  | arr va =>
    dsimp only at h
    cases hl : va.toList with
    | nil => rw [hl] at h; cases h; rfl
    | cons a0 rest2 =>
      rw [hl] at h
      cases rest2 with
      | nil => dsimp only at h; cases h; rfl
      | cons a1 rest3 =>
        dsimp only at h
        obtain ⟨pr, hrsv, h2⟩ := em_ok_of_bind _ _ _ h
        obtain ⟨e1, coll⟩ := pr
        have hs1 : e1.schema = e.schema := hr _ _ _ hrsv
        dsimp only at h2
        cases coll with
        | arr items =>
          dsimp only at h2
          by_cases hemp : (items.toList.isEmpty = true)
          · rw [if_pos hemp] at h2; cases h2; exact hs1
          · rw [if_neg hemp] at h2
            rw [someLoop_schema rsv hr a1 items.toList e1 res h2, hs1]
        | null => cases h2; exact hs1
        | bool b => cases h2; exact hs1
        | num q => cases h2; exact hs1
        | str s => cases h2; exact hs1
        | obj fs => cases h2; exact hs1
  | null => cases h; rfl
  | bool b => cases h; rfl
  | num q => cases h; rfl
  | str s => cases h; rfl
  | obj fs => cases h; rfl

/-- The all operator preserves the schema. -/
theorem opAll_schema (rsv : Resolver) (hr : SchemaPreserving rsv) (e : Engine) (args : Value)
    (res : Engine × Value) (h : opAll rsv e args = Except.ok res) :
    res.1.schema = e.schema := by
  unfold opAll at h
  cases args with
  | arr va =>
    dsimp only at h
    cases hl : va.toList with
    | nil => rw [hl] at h; cases h; rfl
    | cons a0 rest2 =>
      rw [hl] at h
      cases rest2 with
      | nil => dsimp only at h; cases h; rfl
      | cons a1 rest3 =>
        dsimp only at h
        obtain ⟨pr, hrsv, h2⟩ := em_ok_of_bind _ _ _ h
        obtain ⟨e1, coll⟩ := pr
        have hs1 : e1.schema = e.schema := hr _ _ _ hrsv
        dsimp only at h2
        cases coll with
        | arr items =>
          dsimp only at h2
          by_cases hemp : (items.toList.isEmpty = true)
          · rw [if_pos hemp] at h2; cases h2; exact hs1
          · rw [if_neg hemp] at h2
            rw [allLoop_schema rsv hr a1 items.toList e1 res h2, hs1]
        | null => cases h2; exact hs1
        | bool b => cases h2; exact hs1
        | num q => cases h2; exact hs1
        | str s => cases h2; exact hs1
        | obj fs => cases h2; exact hs1
  | null => cases h; rfl
  | bool b => cases h; rfl
  | num q => cases h; rfl
  | str s => cases h; rfl
  | obj fs => cases h; rfl

/-- The none operator preserves the schema. -/
theorem opNone_schema (rsv : Resolver) (hr : SchemaPreserving rsv) (e : Engine) (args : Value)
    (res : Engine × Value) (h : opNone rsv e args = Except.ok res) :
    res.1.schema = e.schema := by
  unfold opNone at h
  cases args with
  | arr va =>
    dsimp only at h
    cases hl : va.toList with
    | nil => rw [hl] at h; cases h; rfl
    | cons a0 rest2 =>
      rw [hl] at h
      cases rest2 with
      | nil => dsimp only at h; cases h; rfl
      | cons a1 rest3 =>
        dsimp only at h
        obtain ⟨pr, hrsv, h2⟩ := em_ok_of_bind _ _ _ h
        obtain ⟨e1, coll⟩ := pr
        have hs1 : e1.schema = e.schema := hr _ _ _ hrsv
        dsimp only at h2
        cases coll with
        | arr items =>
          dsimp only at h2
          by_cases hemp : (items.toList.isEmpty = true)
          · rw [if_pos hemp] at h2; cases h2; exact hs1
          · rw [if_neg hemp] at h2
            rw [noneLoop_schema rsv hr a1 items.toList e1 res h2, hs1]
        | null => cases h2; exact hs1
        | bool b => cases h2; exact hs1
        | num q => cases h2; exact hs1
        | str s => cases h2; exact hs1
        | obj fs => cases h2; exact hs1
  | null => cases h; rfl
  | bool b => cases h; rfl
  | num q => cases h; rfl
  | str s => cases h; rfl
  | obj fs => cases h; rfl

/-- The and operator preserves the schema. -/
theorem opAnd_schema (rsv : Resolver) (hr : SchemaPreserving rsv) (e : Engine) (args : Value)
    (res : Engine × Value) (h : opAnd rsv e args = Except.ok res) :
    res.1.schema = e.schema := by
  unfold opAnd at h
  cases args with
  | arr va => exact andLoop_schema rsv hr va.toList e res h
  | null =>
    obtain ⟨pr, hrsv, h2⟩ := em_ok_of_bind _ _ _ h
    obtain ⟨e1, v⟩ := pr
    dsimp only at h2
    cases h2
    exact hr _ _ (e1, v) hrsv
  | bool b =>
    obtain ⟨pr, hrsv, h2⟩ := em_ok_of_bind _ _ _ h
    obtain ⟨e1, v⟩ := pr
    dsimp only at h2
    cases h2
    exact hr _ _ (e1, v) hrsv
  | num q =>
    obtain ⟨pr, hrsv, h2⟩ := em_ok_of_bind _ _ _ h
    obtain ⟨e1, v⟩ := pr
    dsimp only at h2
    cases h2
    exact hr _ _ (e1, v) hrsv
  | str s =>
    obtain ⟨pr, hrsv, h2⟩ := em_ok_of_bind _ _ _ h
    obtain ⟨e1, v⟩ := pr
    dsimp only at h2
    cases h2
    exact hr _ _ (e1, v) hrsv
  | obj fs =>
    obtain ⟨pr, hrsv, h2⟩ := em_ok_of_bind _ _ _ h
    obtain ⟨e1, v⟩ := pr
    dsimp only at h2
    cases h2
    exact hr _ _ (e1, v) hrsv

/-- The or operator preserves the schema. -/
theorem opOr_schema (rsv : Resolver) (hr : SchemaPreserving rsv) (e : Engine) (args : Value)
    (res : Engine × Value) (h : opOr rsv e args = Except.ok res) :
    res.1.schema = e.schema := by
  unfold opOr at h
  cases args with
  | arr va => exact orLoop_schema rsv hr va.toList e res h
  | null =>
    obtain ⟨pr, hrsv, h2⟩ := em_ok_of_bind _ _ _ h
    obtain ⟨e1, v⟩ := pr
    dsimp only at h2
    cases h2
    exact hr _ _ (e1, v) hrsv
  | bool b =>
    obtain ⟨pr, hrsv, h2⟩ := em_ok_of_bind _ _ _ h
    obtain ⟨e1, v⟩ := pr
    dsimp only at h2
    cases h2
    exact hr _ _ (e1, v) hrsv
  | num q =>
    obtain ⟨pr, hrsv, h2⟩ := em_ok_of_bind _ _ _ h
    obtain ⟨e1, v⟩ := pr
    dsimp only at h2
    cases h2
    exact hr _ _ (e1, v) hrsv
  | str s =>
    obtain ⟨pr, hrsv, h2⟩ := em_ok_of_bind _ _ _ h
    obtain ⟨e1, v⟩ := pr
    dsimp only at h2
    cases h2
    exact hr _ _ (e1, v) hrsv
  | obj fs =>
    obtain ⟨pr, hrsv, h2⟩ := em_ok_of_bind _ _ _ h
    obtain ⟨e1, v⟩ := pr
    dsimp only at h2
    cases h2
    exact hr _ _ (e1, v) hrsv

/-- The if operator preserves the schema. -/
theorem opIf_schema (rsv : Resolver) (hr : SchemaPreserving rsv) (e : Engine) (args : Value)
    (res : Engine × Value) (h : opIf rsv e args = Except.ok res) :
    res.1.schema = e.schema := by
  unfold opIf at h
  cases args with
  | arr va =>
    dsimp only at h
    by_cases hlen : (va.toList.length < 2)
    · rw [if_pos hlen] at h; cases h; rfl
    · rw [if_neg hlen] at h
      exact ifLoop_schema rsv hr va.toList e res h
  | null => cases h; rfl
  | bool b => cases h; rfl
  | num q => cases h; rfl
  | str s => cases h; rfl
  | obj fs => cases h; rfl

/-- Two resolved arguments followed by a pure combination preserve the schema. -/
theorem ra2_bind_schema (rsv : Resolver) (hr : SchemaPreserving rsv) (e : Engine) (args : Value)
    (f : Value → Value → Value) (res : Engine × Value)
    (h : ((do
        let pr ← resolveArgs2 rsv e args
        match pr with
        | (e1, x, y) => pure (e1, f x y) : EM (Engine × Value))) = Except.ok res) :
    res.1.schema = e.schema := by
  obtain ⟨pr, hra, h2⟩ := em_ok_of_bind _ _ _ h
  obtain ⟨e1, x, y⟩ := pr
  dsimp only at h2
  cases h2
  exact resolveArgs2_schema rsv hr e args (e1, x, y) hra

/-- One resolved argument followed by a pure combination preserves the schema. -/
theorem ra1_bind_schema (rsv : Resolver) (hr : SchemaPreserving rsv) (e : Engine) (args : Value)
    (f : Value → Value) (res : Engine × Value)
    (h : ((do
        let pr ← resolveArgs1 rsv e args
        match pr with
        | (e1, x) => pure (e1, f x) : EM (Engine × Value))) = Except.ok res) :
    res.1.schema = e.schema := by
  obtain ⟨pr, hra, h2⟩ := em_ok_of_bind _ _ _ h
  obtain ⟨e1, x⟩ := pr
  dsimp only at h2
  cases h2
  exact resolveArgs1_schema rsv hr e args (e1, x) hra

/-- Every operator preserves the schema when its recursive resolver does. -/
theorem executeOperator_schema (p : GoPrims) (rsv : Resolver) (hr : SchemaPreserving rsv)
    (e : Engine) (op : String) (args : Value) (res : Engine × Value)
    (h : executeOperator p rsv e op args = Except.ok res) : res.1.schema = e.schema := by
  unfold executeOperator at h
  by_cases c1 : (op == "var") = true
  · rw [if_pos c1] at h
    cases args with
    | str s => exact getVar_schema rsv hr e s res h
    | null => cases h; rfl
    | bool b => cases h; rfl
    | num q => cases h; rfl
    | arr a => cases h; rfl
    | obj o => cases h; rfl
  rw [if_neg c1] at h
  by_cases c2 : (op == "==") = true
  · rw [if_pos c2] at h; exact ra2_bind_schema rsv hr e args (fun x y => Value.bool (compareEqual x y)) res h
  rw [if_neg c2] at h
  by_cases c3 : (op == "!=") = true
  · rw [if_pos c3] at h; exact ra2_bind_schema rsv hr e args (fun x y => Value.bool (! compareEqual x y)) res h
  rw [if_neg c3] at h
  by_cases c4 : (op == ">") = true
  · rw [if_pos c4] at h; exact ra2_bind_schema rsv hr e args (fun x y => Value.bool (compareNumeric x y (fun a b => decide (a > b)))) res h
  rw [if_neg c4] at h
  by_cases c5 : (op == "<") = true
  · rw [if_pos c5] at h; exact ra2_bind_schema rsv hr e args (fun x y => Value.bool (compareNumeric x y (fun a b => decide (a < b)))) res h
  rw [if_neg c5] at h
  by_cases c6 : (op == ">=") = true
  · rw [if_pos c6] at h; exact ra2_bind_schema rsv hr e args (fun x y => Value.bool (compareNumeric x y (fun a b => decide (a ≥ b)))) res h
  rw [if_neg c6] at h
  by_cases c7 : (op == "<=") = true
  · rw [if_pos c7] at h; exact ra2_bind_schema rsv hr e args (fun x y => Value.bool (compareNumeric x y (fun a b => decide (a ≤ b)))) res h
  rw [if_neg c7] at h
  by_cases c8 : (op == "and") = true
  · rw [if_pos c8] at h; exact opAnd_schema rsv hr e args res h
  rw [if_neg c8] at h
  by_cases c9 : (op == "or") = true
  · rw [if_pos c9] at h; exact opOr_schema rsv hr e args res h
  rw [if_neg c9] at h
  by_cases c10 : (op == "not" || op == "!") = true
  · rw [if_pos c10] at h; exact ra1_bind_schema rsv hr e args (fun x => Value.bool (! isTruthy x)) res h
  rw [if_neg c10] at h
  by_cases c11 : (op == "if") = true
  · rw [if_pos c11] at h; exact opIf_schema rsv hr e args res h
  rw [if_neg c11] at h
  by_cases c12 : (op == "+") = true
  · rw [if_pos c12] at h; exact ra2_bind_schema rsv hr e args opAdd res h
  rw [if_neg c12] at h
  by_cases c13 : (op == "-") = true
  · rw [if_pos c13] at h; exact ra2_bind_schema rsv hr e args opSubtract res h
  rw [if_neg c13] at h
  by_cases c14 : (op == "*") = true
  · rw [if_pos c14] at h; exact ra2_bind_schema rsv hr e args opMultiply res h
  rw [if_neg c14] at h
  by_cases c15 : (op == "/") = true
  · rw [if_pos c15] at h; exact ra2_bind_schema rsv hr e args opDivide res h
  rw [if_neg c15] at h
  by_cases c16 : (op == "before") = true
  · rw [if_pos c16] at h; exact ra2_bind_schema rsv hr e args (fun x y => Value.bool (compareDates p x y (fun a b => decide (a < b)))) res h
  rw [if_neg c16] at h
  by_cases c17 : (op == "after") = true
  · rw [if_pos c17] at h; exact ra2_bind_schema rsv hr e args (fun x y => Value.bool (compareDates p x y (fun a b => decide (a > b)))) res h
  rw [if_neg c17] at h
  by_cases c18 : (op == "in") = true
  · rw [if_pos c18] at h; exact ra2_bind_schema rsv hr e args (fun x y => Value.bool (opIn x y)) res h
  rw [if_neg c18] at h
  by_cases c19 : (op == "some") = true
  · rw [if_pos c19] at h; exact opSome_schema rsv hr e args res h
  rw [if_neg c19] at h
  by_cases c20 : (op == "all") = true
  · rw [if_pos c20] at h; exact opAll_schema rsv hr e args res h
  rw [if_neg c20] at h
  by_cases c21 : (op == "none") = true
  · rw [if_pos c21] at h; exact opNone_schema rsv hr e args res h
  rw [if_neg c21] at h
  cases h
  rfl

/-- The resolver never touches the schema: resolution only reads
definitions and may append errors. -/
theorem resolveF_schema (p : GoPrims) :
    ∀ (fuel : Nat) (e : Engine) (v : Value) (res : Engine × Value),
      resolveF p fuel e v = Except.ok res → res.1.schema = e.schema := by
  intro fuel
  induction fuel with
  | zero => intro e v res h; cases h; rfl
  | succ f ih =>
    intro e v res h
    have hr : SchemaPreserving (resolveF p f) := fun e v res h => ih e v res h
    unfold resolveF at h
    cases v with
    | null => cases h; rfl
    | obj fs =>
      cases fs with
      | nil => cases h; rfl
      | cons op args rest =>
        cases rest with
        | nil => exact executeOperator_schema p _ hr e op args res h
        | cons k2 v2 rest2 => cases h; rfl
    | arr xs =>
      obtain ⟨pr, hre, h2⟩ := em_ok_of_bind _ _ _ h
      obtain ⟨e1, rs⟩ := pr
      dsimp only at h2
      cases h2
      exact resolveElems_schema _ hr xs.toList e (e1, rs) hre
    | bool b => cases h; rfl
    | num q => cases h; rfl
    | str s => cases h; rfl

/-- C7: the engine equality operator agrees with the four-case rule of the
specification — both null → true, exactly one null → false, both numeric →
numeric equality, otherwise string-representation equality — and in the
fallback the string "1" compares equal to the number 1 even though numeric
coercion rejects strings. -/
theorem c7_compareEqual_cases :
    (∀ a b : Value, compareEqual a b = eqSpec a b) ∧
    compareEqual (.str "1") (.num 1) = true ∧
    toFloat (.str "1") = none := by
  refine ⟨fun a b => ?_, by decide, rfl⟩
  cases a <;> cases b <;> rfl

/-- A derived entry with a definition and a non-nil eval is processed
head-first: resolve the expression on the incoming engine, write the
result, then continue with the rest of the representation list. -/
theorem computeDerivedGo_cons_eval (p : GoPrims) (fuel : Nat) (e : Engine) (name : String)
    (d : DerivedDef) (ev : Value) (rest : List (String × Option DerivedDef))
    (hev : d.eval = some ev) :
    computeDerivedGo p fuel e ((name, some d) :: rest) =
      (resolveF p fuel e ev >>= fun pr =>
        computeDerivedGo p fuel (derivedWrite pr.1 name pr.2) rest) := by
  simp only [computeDerivedGo]
  rw [hev]

/-- The derived write leaves a readonly definition under the written name. -/
theorem derivedWrite_readonly (e1 : Engine) (name : String) (value : Value) :
    ∃ dfn, lookup (derivedWrite e1 name value).schema.definitions name = some (some dfn) ∧
      dfn.readonly = true := by
  unfold derivedWrite
  cases hlk : lookup e1.schema.definitions name with
  | none => exact ⟨_, lookup_setKey_self _ _ _, rfl⟩
  | some od =>
    cases od with
    | none => exact ⟨_, lookup_setKey_self _ _ _, rfl⟩
    | some existing => exact ⟨_, lookup_setKey_self _ _ _, rfl⟩

/-- The derived write does not touch other names. -/
theorem derivedWrite_other (e1 : Engine) (name k : String) (value : Value) (hne : k ≠ name) :
    lookup (derivedWrite e1 name value).schema.definitions k =
      lookup e1.schema.definitions k := by
  unfold derivedWrite
  cases lookup e1.schema.definitions name with
  | none => exact lookup_setKey_other _ _ _ _ hne
  | some od =>
    cases od with
    | none => exact lookup_setKey_other _ _ _ _ hne
    | some existing => exact lookup_setKey_other _ _ _ _ hne

/-- A readonly definition survives the rest of a derived pass: the resolver
never writes definitions and every derived write is itself readonly. -/
theorem computeDerivedGo_readonly_persist (p : GoPrims) (fuel : Nat) :
    ∀ (l : List (String × Option DerivedDef)) (e e2 : Engine) (name : String)
      (dfn : Definition),
      lookup e.schema.definitions name = some (some dfn) → dfn.readonly = true →
      computeDerivedGo p fuel e l = Except.ok e2 →
      ∃ dfn2, lookup e2.schema.definitions name = some (some dfn2) ∧ dfn2.readonly = true := by
  intro l
  induction l with
  | nil => intro e e2 name dfn hl hro h; cases h; exact ⟨dfn, hl, hro⟩
  | cons entry rest ih =>
    intro e e2 name dfn hl hro h
    obtain ⟨n, dd⟩ := entry
    cases dd with
    | none =>
      unfold computeDerivedGo at h
      exact ih e e2 name dfn hl hro h
    | some d =>
      cases hev : d.eval with
      | none =>
        unfold computeDerivedGo at h
        dsimp only at h
        rw [hev] at h
        exact ih e e2 name dfn hl hro h
      | some ev =>
        rw [computeDerivedGo_cons_eval p fuel e n d ev rest hev] at h
        obtain ⟨pr, hres, h2⟩ := em_ok_of_bind _ _ _ h
        obtain ⟨e1, value⟩ := pr
        dsimp only at h2
        have hs : e1.schema = e.schema := resolveF_schema p fuel e ev (e1, value) hres
        by_cases hn : name = n
        · subst hn
          obtain ⟨dfn2, hl2, hro2⟩ := derivedWrite_readonly e1 name value
          exact ih _ e2 name dfn2 hl2 hro2 h2
        · have hl2 : lookup (derivedWrite e1 n value).schema.definitions name =
              some (some dfn) := by
            rw [derivedWrite_other e1 n name value hn, hs]
            exact hl
          exact ih _ e2 name dfn hl2 hro h2

/-- Every derived entry holding a definition with a non-nil eval ends the
pass as a readonly definition under its name. -/
theorem computeDerivedGo_entry_readonly (p : GoPrims) (fuel : Nat) :
    ∀ (l : List (String × Option DerivedDef)) (e e2 : Engine),
      computeDerivedGo p fuel e l = Except.ok e2 →
      ∀ (name : String) (d : DerivedDef) (ev : Value),
        (name, some d) ∈ l → d.eval = some ev →
        ∃ dfn, lookup e2.schema.definitions name = some (some dfn) ∧ dfn.readonly = true := by
  intro l
  induction l with
  | nil => intro e e2 h name d ev hmem hev; cases hmem
  | cons entry rest ih =>
    intro e e2 h name d ev hmem hev
    obtain ⟨n, dd⟩ := entry
    rcases List.mem_cons.mp hmem with hhead | htail
    · injection hhead with h1 h2
      subst h1
      subst h2
      rw [computeDerivedGo_cons_eval p fuel e name d ev rest hev] at h
      obtain ⟨pr, hres, h2⟩ := em_ok_of_bind _ _ _ h
      obtain ⟨e1, value⟩ := pr
      dsimp only at h2
      obtain ⟨dfn, hld, hro⟩ := derivedWrite_readonly e1 name value
      exact computeDerivedGo_readonly_persist p fuel rest _ e2 name dfn hld hro h2
    · cases dd with
      | none =>
        unfold computeDerivedGo at h
        exact ih e e2 h name d ev htail hev
      | some d0 =>
        cases hev0 : d0.eval with
        | none =>
          unfold computeDerivedGo at h
          dsimp only at h
          rw [hev0] at h
          exact ih e e2 h name d ev htail hev
        | some ev0 =>
          rw [computeDerivedGo_cons_eval p fuel e n d0 ev0 rest hev0] at h
          obtain ⟨pr, hres, h2⟩ := em_ok_of_bind _ _ _ h
          obtain ⟨e1, value⟩ := pr
          dsimp only at h2
          exact ih _ e2 h2 name d ev htail hev

/-- Derived mapping of the C6 counterexample in one representation order. -/
def c6DerA : List (String × Option DerivedDef) :=
  [("a", some { eval := some (mkVar "ua") }), ("b", some { eval := some (mkVar "ub") })]

/-- The same derived mapping in the opposite representation order. -/
def c6DerB : List (String × Option DerivedDef) :=
  [("b", some { eval := some (mkVar "ub") }), ("a", some { eval := some (mkVar "ua") })]

/-- Document with the first representation of the derived mapping. -/
def c6DocA : Schema := { stateModel := some { derived := c6DerA } }

/-- Document with the second representation of the same derived mapping. -/
def c6DocB : Schema := { stateModel := some { derived := c6DerB } }

/-- C6 counterexample: two representations of the SAME derived mapping (the
key-to-entry function is identical) produce observably different outputs —
the runtime warnings of the two derived passes appear in representation
order, so evaluation is NOT determined by the mapping with an
insertion-order convention: the Go map's iteration order is unspecified. -/
theorem c6_counterexample :
    (∀ k, lookup c6DerA k = lookup c6DerB k) ∧
    (extractOk (Run stubPrims c6DocA 0)).errors.map (fun er => er.message) =
      ["Undefined variable ua in logic expression",
       "Undefined variable ub in logic expression",
       "Undefined variable ua in logic expression",
       "Undefined variable ub in logic expression"] ∧
    (extractOk (Run stubPrims c6DocB 0)).errors.map (fun er => er.message) =
      ["Undefined variable ub in logic expression",
       "Undefined variable ua in logic expression",
       "Undefined variable ub in logic expression",
       "Undefined variable ua in logic expression"] ∧
    Run stubPrims c6DocA 0 ≠ Run stubPrims c6DocB 0 := by
  refine ⟨?_, by decide, by decide, by decide⟩
  intro k
  unfold c6DerA c6DerB lookup
  by_cases ha : ("a" == k) = true
  · have hb : ("b" == k) = false := by
      rw [beq_iff_eq] at ha
      subst ha
      decide
    simp only [List.find?, ha, hb]
  · have ha2 : ("a" == k) = false := by
      cases hq : ("a" == k) with
      | true => exact absurd hq ha
      | false => rfl
    by_cases hb : ("b" == k) = true
    · simp only [List.find?, ha2, hb]
    · have hb2 : ("b" == k) = false := by
        cases hq : ("b" == k) with
        | true => exact absurd hq hb
        | false => rfl
      simp only [List.find?, ha2, hb2]

/-- C6 (amended): within each derived pass the entries of the runtime
representation of state_model.derived are processed sequentially in
representation order — the head entry's expression is resolved on the
incoming engine and its result written before the rest of the list is
processed — and every entry holding a definition with a non-nil eval ends
the pass as a readonly definition under its name.  The representation
order of a Go map is unspecified, not insertion order: permuting the
representation of the same mapping changes the output (see the
counterexample). -/
theorem c6_derived_map_order (p : GoPrims) (fuel : Nat) (e : Engine) (name : String)
    (d : DerivedDef) (ev : Value) (rest l : List (String × Option DerivedDef))
    (e2 : Engine) (hev : d.eval = some ev)
    (h : computeDerivedGo p fuel e l = Except.ok e2) :
    (computeDerivedGo p fuel e ((name, some d) :: rest) =
      (resolveF p fuel e ev >>= fun pr =>
        computeDerivedGo p fuel (derivedWrite pr.1 name pr.2) rest)) ∧
    (∀ nm dd evd, (nm, some dd) ∈ l → dd.eval = some evd →
      ∃ dfn, lookup e2.schema.definitions nm = some (some dfn) ∧ dfn.readonly = true) :=
  ⟨computeDerivedGo_cons_eval p fuel e name d ev rest hev,
   fun nm dd evd hmem hevd =>
     computeDerivedGo_entry_readonly p fuel l e e2 h nm dd evd hmem hevd⟩

/-- Projection of a successful engine computation (the error case never
occurs where this is used). -/
def emEngine : EM Engine → Engine
  | .ok e => e
  | .error _ => NewEngine {}

/-- The computed-mismatch issue one readonly entry of the converged result
contributes, as the specification describes it: expected is the computed
value, claimed (when present) the submitted one. -/
def cmIssueOf (newS : Schema) (entry : String × Option Definition) : Option VerifyIssue :=
  match entry.2 with
  | none => none
  | some resultDef =>
    if ! resultDef.readonly then none
    else
      match lookup newS.definitions entry.1 with
      | none =>
        some { code := verifyComputedMismatch, fieldId := entry.1,
               message := "computed field " ++ entry.1 ++ " is missing from the submitted document",
               expected := resultDef.value }
      | some none => none
      | some (some newDef) =>
        if ! compareEqual newDef.value resultDef.value then
          some { code := verifyComputedMismatch, fieldId := entry.1,
                 message := "computed field " ++ entry.1 ++ " was modified",
                 expected := resultDef.value, claimed := newDef.value }
        else none

/-- An entry avoids the nil-dereference of the readonly comparison: it is
not a readonly definition whose name holds a nil pointer in the submitted
document. -/
def cmPanicFree (newS : Schema) (entry : String × Option Definition) : Bool :=
  match entry.2 with
  | none => true
  | some resultDef =>
    ! (resultDef.readonly && lookup newS.definitions entry.1 == some none)

/-- One step of the readonly comparison appends exactly the entry's issue. -/
theorem cmStep_spec (newS : Schema) (acc : List VerifyIssue)
    (en : String × Option Definition) (hpf : cmPanicFree newS en = true) :
    cmStep newS acc en = Except.ok (acc ++ (cmIssueOf newS en).toList) := by
  obtain ⟨name, od⟩ := en
  unfold cmPanicFree at hpf
  unfold cmStep cmIssueOf
  cases od with
  | none => simp [pure, Except.pure]
  | some rd =>
    dsimp only
    dsimp only at hpf
    cases hro : rd.readonly with
    | false => simp [pure, Except.pure]
    | true =>
      cases hlk : lookup newS.definitions name with
      | none => simp [pure, Except.pure]
      | some ond =>
        cases ond with
        | none =>
          rw [hro, hlk] at hpf
          simp at hpf
        | some nd =>
          cases hcmp : compareEqual nd.value rd.value with
          | false => simp [pure, Except.pure, hcmp]
          | true => simp [pure, Except.pure, hcmp]

/-- A nonempty list is not `isEmpty`. -/
theorem isEmpty_false_of_mem {α : Type} {x : α} {l : List α} (h : x ∈ l) :
    l.isEmpty = false := by
  cases l with
  | nil => cases h
  | cons a t => rfl

/-- The readonly-comparison fold collects every entry's issue, in entry
order, when no entry panics. -/
theorem cmFold_spec (newS : Schema) :
    ∀ (l : List (String × Option Definition)) (acc : List VerifyIssue),
      (∀ en ∈ l, cmPanicFree newS en = true) →
      List.foldlM (cmStep newS) acc l = Except.ok (acc ++ l.filterMap (cmIssueOf newS)) := by
  intro l
  induction l with
  | nil => intro acc hp; simp [List.foldlM, pure, Except.pure]
  | cons en rest ih =>
    intro acc hp
    have h1 : cmStep newS acc en = Except.ok (acc ++ (cmIssueOf newS en).toList) :=
      cmStep_spec newS acc en (hp en (List.mem_cons_self _ _))
    rw [List.foldlM_cons, h1, em_bind_ok]
    rw [ih _ (fun en2 hm => hp en2 (List.mem_cons_of_mem _ hm))]
    cases hco : cmIssueOf newS en with
    | none => simp [List.filterMap_cons, hco]
    | some i => simp [List.filterMap_cons, hco]

/-- The readonly comparison succeeds with the issue list of all entries when
no entry panics. -/
theorem computedMismatchIssues_spec (newS resultS : Schema)
    (hpf : ∀ en ∈ resultS.definitions, cmPanicFree newS en = true) :
    computedMismatchIssues newS resultS =
      Except.ok (resultS.definitions.filterMap (cmIssueOf newS)) := by
  unfold computedMismatchIssues
  rw [cmFold_spec newS resultS.definitions [] hpf]
  simp

/-- C4: after convergence, final-state validation flags every readonly field
of the converged result whose submitted counterpart is missing (issue with
the computed value as expected) or unequal under the engine equality (issue
with expected and claimed); every such issue is collected into the result
and any of them forces valid = false. -/
theorem c4_computed_mismatch (newS resultS : Schema) (vr : VerifyResult)
    (hpf : ∀ en ∈ resultS.definitions, cmPanicFree newS en = true)
    (h : validateFinalState newS resultS = Except.ok vr) :
    (∀ issue ∈ resultS.definitions.filterMap (cmIssueOf newS),
      issue ∈ vr.issues ∧ vr.valid = false) ∧
    (∀ name resultDef, (name, some resultDef) ∈ resultS.definitions →
      resultDef.readonly = true →
      (lookup newS.definitions name = none →
        ({ code := verifyComputedMismatch, fieldId := name,
           message := "computed field " ++ name ++ " is missing from the submitted document",
           expected := resultDef.value } : VerifyIssue) ∈ vr.issues ∧ vr.valid = false) ∧
      (∀ newDef, lookup newS.definitions name = some (some newDef) →
        compareEqual newDef.value resultDef.value = false →
        ({ code := verifyComputedMismatch, fieldId := name,
           message := "computed field " ++ name ++ " was modified",
           expected := resultDef.value, claimed := newDef.value } : VerifyIssue) ∈ vr.issues ∧
        vr.valid = false)) := by
  unfold validateFinalState at h
  rw [computedMismatchIssues_spec newS resultS hpf] at h
  rw [em_bind_ok] at h
  obtain ⟨i2, hatt, h2⟩ := em_ok_of_bind _ _ _ h
  dsimp only at h2
  cases h2
  have hmain : ∀ issue ∈ resultS.definitions.filterMap (cmIssueOf newS),
      issue ∈ (if (newS.status != resultS.status) = true then
          (unknownFieldIssues newS resultS ++
            resultS.definitions.filterMap (cmIssueOf newS) ++ i2) ++
            [{ code := verifyStatusMismatch,
               message := "the document status does not match what was computed",
               expected := .str resultS.status, claimed := .str newS.status }]
        else
          unknownFieldIssues newS resultS ++
            resultS.definitions.filterMap (cmIssueOf newS) ++ i2) ∧
      (if (newS.status != resultS.status) = true then
          (unknownFieldIssues newS resultS ++
            resultS.definitions.filterMap (cmIssueOf newS) ++ i2) ++
            [{ code := verifyStatusMismatch,
               message := "the document status does not match what was computed",
               expected := .str resultS.status, claimed := .str newS.status }]
        else
          unknownFieldIssues newS resultS ++
            resultS.definitions.filterMap (cmIssueOf newS) ++ i2).isEmpty = false := by
    intro issue hmem
    have hA : issue ∈ unknownFieldIssues newS resultS ++
        resultS.definitions.filterMap (cmIssueOf newS) ++ i2 :=
      List.mem_append.mpr (Or.inl (List.mem_append.mpr (Or.inr hmem)))
    by_cases hst : (newS.status != resultS.status) = true
    · simp only [if_pos hst]
      refine ⟨List.mem_append.mpr (Or.inl hA), ?_⟩
      exact isEmpty_false_of_mem (List.mem_append.mpr (Or.inl hA))
    · simp only [if_neg hst]
      exact ⟨hA, isEmpty_false_of_mem hA⟩
  constructor
  · intro issue hmem
    exact hmain issue hmem
  · intro name resultDef hmem hro
    constructor
    · intro hlk
      have hco : cmIssueOf newS (name, some resultDef) =
          some { code := verifyComputedMismatch, fieldId := name,
                 message := "computed field " ++ name ++ " is missing from the submitted document",
                 expected := resultDef.value } := by
        unfold cmIssueOf
        dsimp only
        rw [hro, hlk]
        simp
      exact hmain _ (List.mem_filterMap.mpr ⟨(name, some resultDef), hmem, hco⟩)
    · intro newDef hlk hcmp
      have hco : cmIssueOf newS (name, some resultDef) =
          some { code := verifyComputedMismatch, fieldId := name,
                 message := "computed field " ++ name ++ " was modified",
                 expected := resultDef.value, claimed := newDef.value } := by
        unfold cmIssueOf
        dsimp only
        rw [hro, hlk]
        simp [hcmp]
      exact hmain _ (List.mem_filterMap.mpr ⟨(name, some resultDef), hmem, hco⟩)

/-- Projection of a successful verify computation (the error case never
occurs where this is used). -/
def emVR : EM VerifyResult → VerifyResult
  | .ok vr => vr
  | .error _ => {}

/-- The tampered readonly field of the C4 witness, as computed. -/
def c4TDef : Definition :=
  { type := "number", value := .num 10, readonly := true, visible := some true }

/-- The missing readonly field of the C4 witness, as computed. -/
def c4UDef : Definition :=
  { type := "number", value := .num 7, readonly := true, visible := some true }

/-- Converged result of the C4 witness. -/
def c4Result : Schema :=
  { definitions := [("t", some c4TDef), ("u", some c4UDef)], status := "READY" }

/-- Submitted definition of the C4 witness: the readonly value tampered to
99, the other computed field dropped. -/
def c4NewTDef : Definition := { type := "number", value := .num 99 }

/-- Submitted document of the C4 witness. -/
def c4New : Schema := { definitions := [("t", some c4NewTDef)], status := "READY" }

/-- Witness for C4: on a concrete converged result with a tampered readonly
field and a missing readonly field, both computed_mismatch issues are in
the verify result and it is invalid. -/
theorem c4_computed_mismatch_witness :
    validateFinalState c4New c4Result = Except.ok (emVR (validateFinalState c4New c4Result)) ∧
    (({ code := verifyComputedMismatch, fieldId := "t",
        message := "computed field " ++ "t" ++ " was modified",
        expected := c4TDef.value, claimed := c4NewTDef.value } : VerifyIssue) ∈
        (emVR (validateFinalState c4New c4Result)).issues ∧
      (emVR (validateFinalState c4New c4Result)).valid = false) ∧
    (({ code := verifyComputedMismatch, fieldId := "u",
        message := "computed field " ++ "u" ++ " is missing from the submitted document",
        expected := c4UDef.value } : VerifyIssue) ∈
        (emVR (validateFinalState c4New c4Result)).issues ∧
      (emVR (validateFinalState c4New c4Result)).valid = false) := by
  have hv : validateFinalState c4New c4Result =
      Except.ok (emVR (validateFinalState c4New c4Result)) := by decide
  have hall := c4_computed_mismatch c4New c4Result _ (by decide) hv
  refine ⟨hv, ?_, ?_⟩
  · exact (hall.2 "t" c4TDef (by decide) rfl).2 c4NewTDef (by decide) (by decide)
  · exact (hall.2 "u" c4UDef (by decide) rfl).1 (by decide)

/-- C8: the public entry points never propagate an internal failure (a Go
panic, modeled as the error of the panic monad): Run returns an error
result carrying the recovered message, and Verify returns an invalid
result whose single issue is an internal_error carrying the message;
successful computations pass through unchanged. -/
theorem c8_panic_safety (p : GoPrims) (s newS baseS : Schema) (d : Int) (mi : Option Int) :
    (∀ m, runMain p s d = Except.error m →
      Run p s d = RunResult.err ("internal error: " ++ m)) ∧
    (∀ r, runMain p s d = Except.ok r → Run p s d = RunResult.ok r) ∧
    (∀ m, verifyMain p newS baseS mi = Except.error m →
      Verify p newS baseS mi =
        { valid := false,
          issues := [{ code := verifyInternalError, message := "internal panic: " ++ m }],
          error := "internal panic: " ++ m }) ∧
    (∀ vr, verifyMain p newS baseS mi = Except.ok vr → Verify p newS baseS mi = vr) := by
  refine ⟨?_, ?_, ?_, ?_⟩
  · intro m hm
    unfold Run
    rw [hm]
  · intro r hr
    unfold Run
    rw [hr]
  · intro m hm
    unfold Verify
    rw [hm]
  · intro vr hvr
    unfold Verify
    rw [hvr]

/-- Document of the C8 witness whose evaluation panics: the rule condition
dereferences the nil definition entry "x". -/
def c8Doc : Schema :=
  { definitions := [("x", none)],
    logicTree := [some { id := "r", when := mkVar "x" }] }

/-- Converged base document of the C8 verify witness: one readonly computed
field. -/
def c8VBase : Schema :=
  { definitions :=
      [("t", some { type := "number", value := .num 10, readonly := true, visible := some true })],
    status := "READY" }

/-- Submitted document of the C8 verify witness: a nil entry under the
computed field's name, so final-state validation panics. -/
def c8VNew : Schema := { definitions := [("t", none)], status := "READY" }

/-- Witness for C8: a real panic (nil definition dereference) inside each
entry point is recovered — Run yields an error result with the message,
Verify a single internal_error issue with the message. -/
theorem c8_panic_safety_witness :
    runMain stubPrims c8Doc 0 = Except.error nilDeref ∧
    Run stubPrims c8Doc 0 = RunResult.err ("internal error: " ++ nilDeref) ∧
    verifyMain stubPrims c8VNew c8VBase none = Except.error nilDeref ∧
    Verify stubPrims c8VNew c8VBase none =
      { valid := false,
        issues := [{ code := verifyInternalError, message := "internal panic: " ++ nilDeref }],
        error := "internal panic: " ++ nilDeref } := by
  have h1 : runMain stubPrims c8Doc 0 = Except.error nilDeref := by decide
  have h3 : verifyMain stubPrims c8VNew c8VBase none = Except.error nilDeref := by decide
  have hc := c8_panic_safety stubPrims c8Doc c8VNew c8VBase 0 none
  exact ⟨h1, hc.1 nilDeref h1, h3, hc.2.2.1 nilDeref h3⟩

/-- Instrumented replay loop: identical to `verifyLoop` but counting the
engine runs performed. -/
def verifyLoopC (p : GoPrims) (newS : Schema) (effectiveDate : Int) (cap : Nat) :
    Nat → Schema → String → Nat → EM (VerifyResult × Nat)
  | 0, _, _, used =>
    let msg := "document did not converge after " ++ toString cap ++ " iterations"
    pure ({ valid := false, issues := [{ code := verifyConvergenceFailed, message := msg }] },
          used)
  | remaining + 1, current, previousVisibleSet, used =>
    match Run p (nextInput newS current) effectiveDate with
    | .err m =>
      let iterStr := toString (cap - (remaining + 1))
      let msg := "VM run failed at iteration " ++ iterStr
      let errStr := "run failed (iteration " ++ iterStr ++ "): " ++ m
      pure ({ valid := false, issues := [{ code := verifyInternalError, message := msg }],
              error := errStr }, used + 1)
    | .ok resultSchema =>
      let currentVisibleSet := visibleFieldSet resultSchema
      if currentVisibleSet == previousVisibleSet then do
        let vr ← validateFinalState newS resultSchema
        pure (vr, used + 1)
      else
        verifyLoopC p newS effectiveDate cap remaining resultSchema currentVisibleSet (used + 1)

/-- The replay loop is the instrumented loop without the counter. -/
theorem verifyLoop_eq_counted (p : GoPrims) (newS : Schema) (d : Int) (cap : Nat) :
    ∀ (remaining : Nat) (current : Schema) (prev : String) (used : Nat),
      verifyLoop p newS d cap remaining current prev =
        Except.map Prod.fst (verifyLoopC p newS d cap remaining current prev used) := by
  intro remaining
  induction remaining with
  | zero => intro current prev used; rfl
  | succ r ih =>
    intro current prev used
    unfold verifyLoop verifyLoopC
    cases Run p (nextInput newS current) d with
    | err m => rfl
    | ok rs =>
      dsimp only
      by_cases hc : (visibleFieldSet rs == prev) = true
      · rw [if_pos hc, if_pos hc]
        cases validateFinalState newS rs with
        | error m => rfl
        | ok vr => rfl
      · rw [if_neg hc, if_neg hc]
        exact ih rs (visibleFieldSet rs) (used + 1)

/-- The instrumented loop performs at most `remaining` further engine runs. -/
theorem verifyLoopC_bound (p : GoPrims) (newS : Schema) (d : Int) (cap : Nat) :
    ∀ (remaining : Nat) (current : Schema) (prev : String) (used : Nat)
      (res : VerifyResult × Nat),
      verifyLoopC p newS d cap remaining current prev used = Except.ok res →
      res.2 ≤ used + remaining := by
  intro remaining
  induction remaining with
  | zero =>
    intro current prev used res h
    cases h
    simp
  | succ r ih =>
    intro current prev used res h
    unfold verifyLoopC at h
    cases hrun : Run p (nextInput newS current) d with
    | err m =>
      rw [hrun] at h
      cases h
      omega
    | ok rs =>
      rw [hrun] at h
      dsimp only at h
      by_cases hc : (visibleFieldSet rs == prev) = true
      · rw [if_pos hc] at h
        obtain ⟨vr, hvf, h2⟩ := em_ok_of_bind _ _ _ h
        try dsimp only at h2
        cases h2
        omega
      · rw [if_neg hc] at h
        have := ih rs (visibleFieldSet rs) (used + 1) res h
        omega

/-- C3 (amended): the replay loop of verify declares convergence exactly
when the sorted comma-joined visible-name STRING of an iteration equals the
previous one (string equality of the joins, which for comma-containing
names is weaker than set equality of the names — see the counterexample);
an exhausted budget yields valid = false with a convergence_failed issue;
and the loop performs at most `cap` engine runs. -/
theorem c3_convergence (p : GoPrims) (newS : Schema) (d : Int) (cap : Nat)
    (remaining : Nat) (current : Schema) (prev : String) (used : Nat)
    (rs : Schema) (hrun : Run p (nextInput newS current) d = RunResult.ok rs) :
    (verifyLoop p newS d cap 0 current prev =
      Except.ok { valid := false,
                  issues := [{ code := verifyConvergenceFailed,
                               message := "document did not converge after " ++
                                 toString cap ++ " iterations" }] }) ∧
    (visibleFieldSet rs = prev →
      verifyLoop p newS d cap (remaining + 1) current prev = validateFinalState newS rs) ∧
    (visibleFieldSet rs ≠ prev →
      verifyLoop p newS d cap (remaining + 1) current prev =
        verifyLoop p newS d cap remaining rs (visibleFieldSet rs)) ∧
    (verifyLoop p newS d cap remaining current prev =
      Except.map Prod.fst (verifyLoopC p newS d cap remaining current prev used)) ∧
    (∀ res, verifyLoopC p newS d cap cap current prev 0 = Except.ok res → res.2 ≤ cap) := by
  refine ⟨rfl, ?_, ?_, verifyLoop_eq_counted p newS d cap remaining current prev used, ?_⟩
  · intro heq
    rw [verifyLoop]
    rw [hrun]
    dsimp only
    rw [if_pos (beq_iff_eq.mpr heq)]
  · intro hne
    rw [verifyLoop]
    rw [hrun]
    dsimp only
    rw [if_neg (by simp [hne])]
  · intro res h
    have := verifyLoopC_bound p newS d cap cap current prev 0 res h
    omega

/-- Visibility modifier turning a field visible. -/
def c3VisT : Value := .obj (.cons "visible" (.bool true) .nil)

/-- Visibility modifier hiding a field. -/
def c3VisF : Value := .obj (.cons "visible" (.bool false) .nil)

/-- Base document of the C3 counterexample: fields "a,b", "a" and "b", a
two-phase toggle (m, n) and a counter w.  Phase 1 shows only "a,b"; phase 2
hides it and shows "a" and "b" — two different visible-name sets with the
same sorted comma-join "a,b". -/
def c3Base : Schema :=
  { definitions :=
      [("m", some { type := "number", value := .num 0, visible := some false }),
       ("n", some { type := "number", value := .num 0, visible := some false }),
       ("w", some { type := "number", value := .num 0, visible := some false }),
       ("a,b", some { type := "string", value := .str "x", visible := some true }),
       ("a", some { type := "string", value := .str "x", visible := some false }),
       ("b", some { type := "string", value := .str "x", visible := some false })],
    logicTree :=
      [some { id := "r1", when := mkOp "==" [mkVar "m", .num 0],
              thenAction := some { set := some [("n", .num 1)],
                                   uiModify := some [("a,b", c3VisT), ("a", c3VisF),
                                                     ("b", c3VisF)] } },
       some { id := "r2", when := mkOp "==" [mkVar "m", .num 1],
              thenAction := some { set := some [("n", .num 0)],
                                   uiModify := some [("a,b", c3VisF), ("a", c3VisT),
                                                     ("b", c3VisT)] } },
       some { id := "r3", when := mkOp "==" [mkVar "n", .num 1],
              thenAction := some { set := some [("m", .num 1)] } },
       some { id := "r4",
              when := mkOp "and" [mkOp "==" [mkVar "m", .num 1], mkOp "==" [mkVar "n", .num 0]],
              thenAction := some { set := some [("w", mkOp "+" [mkVar "w", .num 1])] } }] }

/-- Submitted document of the C3 counterexample. -/
def c3New : Schema := { c3Base with status := "READY" }

/-- The converged-or-not iteration results of the counterexample replay. -/
def c3R1 : Schema := extractOk (Run stubPrims (nextInput c3New c3Base) 0)

/-- Second iteration result. -/
def c3R2 : Schema := extractOk (Run stubPrims (nextInput c3New c3R1) 0)

/-- Third iteration result (what a set-based verifier would converge on). -/
def c3R3 : Schema := extractOk (Run stubPrims (nextInput c3New c3R2) 0)

/-- Replay loop with genuine set-based convergence, as the specification
words it: the sorted visible-name LIST of an iteration must equal the
previous iteration's (no previous list initially). -/
def verifySetLoop (p : GoPrims) (newS : Schema) (effectiveDate : Int) (cap : Nat) :
    Nat → Schema → Option (List String) → EM VerifyResult
  | 0, _, _ =>
    let msg := "document did not converge after " ++ toString cap ++ " iterations"
    pure { valid := false, issues := [{ code := verifyConvergenceFailed, message := msg }] }
  | remaining + 1, current, previousVisible =>
    match Run p (nextInput newS current) effectiveDate with
    | .err m =>
      let iterStr := toString (cap - (remaining + 1))
      let msg := "VM run failed at iteration " ++ iterStr
      let errStr := "run failed (iteration " ++ iterStr ++ "): " ++ m
      pure { valid := false, issues := [{ code := verifyInternalError, message := msg }],
             error := errStr }
    | .ok resultSchema =>
      let cur := sortStrings (visibleNames resultSchema)
      if previousVisible == some cur then
        validateFinalState newS resultSchema
      else
        verifySetLoop p newS effectiveDate cap remaining resultSchema (some cur)

/-- Set-based verify body, sharing everything with `verifyMain` except the
convergence criterion. -/
def verifySetMain (p : GoPrims) (newS baseS : Schema) (maxIter : Option Int) : EM VerifyResult :=
  let maxIterations : Nat :=
    match maxIter with
    | some m => if m > 0 then m.toNat else 100
    | none => 100
  let effectiveDate :=
    if newS.validFrom != "" then
      match p.parseDate newS.validFrom with
      | some t => t
      | none => p.now
    else p.now
  verifySetLoop p newS effectiveDate maxIterations maxIterations baseS none

/-- The value a verify outcome reports for a definition of its output
document. -/
def vrOutValue (em : EM VerifyResult) (id : String) : Value :=
  match em with
  | .ok vr =>
    match vr.schemaOut with
    | some s =>
      match lookup s.definitions id with
      | some (some dfn) => dfn.value
      | _ => .null
    | none => .null
  | .error _ => .null

/-- C3 counterexample: consecutive replay iterations produce DIFFERENT
visible-name sets ({"a,b"} then {"a","b"}) with the SAME sorted comma-join,
so verify declares convergence on a false fixed point; a genuinely
set-based verifier iterates once more and returns an observably different
output (counter w = 2 instead of 1).  Convergence is therefore join-string
equality, not set equality of the names. -/
theorem c3_counterexample :
    visibleFieldSet c3R1 = visibleFieldSet c3R2 ∧
    sortStrings (visibleNames c3R1) ≠ sortStrings (visibleNames c3R2) ∧
    verifyMain stubPrims c3New c3Base none ≠ verifySetMain stubPrims c3New c3Base none ∧
    vrOutValue (verifyMain stubPrims c3New c3Base none) "w" = .num 1 ∧
    vrOutValue (verifySetMain stubPrims c3New c3Base none) "w" = .num 2 :=
  ⟨by decide, by decide, by decide, by decide, by decide⟩

/-- Witness for C3: the amended theorem applied to the first concrete replay
iteration of the counterexample document. -/
theorem c3_convergence_witness :
    Run stubPrims (nextInput c3New c3Base) 0 = RunResult.ok c3R1 ∧
    verifyLoop stubPrims c3New 0 5 5 c3Base "" =
      verifyLoop stubPrims c3New 0 5 4 c3R1 (visibleFieldSet c3R1) := by
  have hrun : Run stubPrims (nextInput c3New c3Base) 0 = RunResult.ok c3R1 := by decide
  exact ⟨hrun,
    (c3_convergence stubPrims c3New 0 5 4 c3Base "" 0 c3R1 hrun).2.2.1 (by decide)⟩

/-- Witness for C6: the amended theorem applied to the concrete derived pass
of the counterexample document, yielding the readonly definition "a". -/
theorem c6_derived_map_order_witness :
    computeDerivedGo stubPrims 5 (NewEngine c6DocA) c6DerA =
      Except.ok (emEngine (computeDerivedGo stubPrims 5 (NewEngine c6DocA) c6DerA)) ∧
    ∃ dfn,
      lookup (emEngine (computeDerivedGo stubPrims 5 (NewEngine c6DocA) c6DerA)).schema.definitions
        "a" = some (some dfn) ∧ dfn.readonly = true := by
  have hcd : computeDerivedGo stubPrims 5 (NewEngine c6DocA) c6DerA =
      Except.ok (emEngine (computeDerivedGo stubPrims 5 (NewEngine c6DocA) c6DerA)) := by decide
  refine ⟨hcd, ?_⟩
  exact (c6_derived_map_order stubPrims 5 (NewEngine c6DocA) "a"
    { eval := some (mkVar "ua") } (mkVar "ua") [] c6DerA _ rfl hcd).2
    "a" { eval := some (mkVar "ua") } (mkVar "ua") (by decide) rfl

end Tenet
